import Mathlib

/-! semlock: an adjustable counting semaphore on two packed 64-bit words.

Shallow embedding of `semlock.go`.  A `uint64` is a natural number below
`2 ^ 64`; every operation that can overflow in Go is reduced modulo `2 ^ 64`
explicitly.  A CAS retry loop is a function of a fuel argument: one unit of
fuel is one pass through the body of the `for` loop, and `none` means that the
loop is still polling when the fuel is spent.
-/

namespace Semlock

/-! ## Constants -/

/-- Mask of the low 32 bits (`const RHS`). -/
def RHS : Nat := 0x00000000FFFFFFFF

/-- Mask of the high 32 bits (`const LHS`). -/
def LHS : Nat := 0xFFFFFFFF00000000

/-- Shift distance of the high half (`const ShiftLHS`). -/
def ShiftLHS : Nat := 32

/-- One unit of the high half (`const OneLHS`). -/
def OneLHS : Nat := 0x100000000

/-- Number of values of a `uint64`. -/
def U64 : Nat := 2 ^ 64

/-! ## State -/

/-- The Go struct `SemaphoreLock`: two packed words and the polling delay
(`time.Duration` is a signed 64-bit count of nanoseconds). -/
structure SemaphoreLock where
  minMax : Nat
  activeAllowed : Nat
  WaitDelay : Int
  deriving DecidableEq, Repr

/-- Both words of the state are 64-bit values. -/
def SemaphoreLock.Valid (s : SemaphoreLock) : Prop :=
  s.minMax < U64 ∧ s.activeAllowed < U64

instance (s : SemaphoreLock) : Decidable s.Valid := by
  unfold SemaphoreLock.Valid; infer_instance

/-- Go conversion `uint64(max)` of an `int`. -/
def uint64OfInt (max : Int) : Nat := (max % (U64 : Int)).toNat

/-! ## Setters and getters -/

/-- Go `SetMin`: `min<<ShiftLHS | (s.minMax & RHS)`. -/
def SemaphoreLock.SetMin (s : SemaphoreLock) (min : Nat) : SemaphoreLock :=
  { s with minMax := ((min <<< ShiftLHS) % U64) ||| (s.minMax &&& RHS) }

/-- Go `SetMax`: `max | (s.minMax & LHS)`. -/
def SemaphoreLock.SetMax (s : SemaphoreLock) (max : Nat) : SemaphoreLock :=
  { s with minMax := max ||| (s.minMax &&& LHS) }

/-- Go `SetActive`: `(active<<ShiftLHS) | (s.activeAllowed & RHS)`. -/
def SemaphoreLock.SetActive (s : SemaphoreLock) (active : Nat) : SemaphoreLock :=
  { s with activeAllowed := ((active <<< ShiftLHS) % U64) ||| (s.activeAllowed &&& RHS) }

/-- Go `SetAllowed`: `allowed | (s.activeAllowed & LHS)`. -/
def SemaphoreLock.SetAllowed (s : SemaphoreLock) (allowed : Nat) : SemaphoreLock :=
  { s with activeAllowed := allowed ||| (s.activeAllowed &&& LHS) }

/-- Go `GetMin`: high half of the bounds word. -/
def SemaphoreLock.GetMin (s : SemaphoreLock) : Nat := s.minMax >>> ShiftLHS

/-- Go `GetMax`: low half of the bounds word. -/
def SemaphoreLock.GetMax (s : SemaphoreLock) : Nat := s.minMax &&& RHS

/-- Go `GetActive`: high half of the occupancy word. -/
def SemaphoreLock.GetActive (s : SemaphoreLock) : Nat := s.activeAllowed >>> ShiftLHS

/-- Go `GetAllowed`: low half of the occupancy word. -/
def SemaphoreLock.GetAllowed (s : SemaphoreLock) : Nat := s.activeAllowed &&& RHS

/-- Go `GetActiveAllowed`: both halves and the raw word, from one load. -/
def SemaphoreLock.GetActiveAllowed (s : SemaphoreLock) : Nat × Nat × Nat :=
  let activeAllowed := s.activeAllowed
  (activeAllowed >>> ShiftLHS, activeAllowed &&& RHS, activeAllowed)

/-! ## Constructors -/

/-- The zero value `&SemaphoreLock{}`. -/
def SemaphoreLock.zero : SemaphoreLock := { minMax := 0, activeAllowed := 0, WaitDelay := 0 }

/-- Go `NewMinSemaphoreLock`. -/
def NewMinSemaphoreLock (max : Int) (waitDelay : Int) : SemaphoreLock :=
  let res := SemaphoreLock.zero
  let res := res.SetMax (uint64OfInt max)
  let res := res.SetMin 1
  let res := res.SetActive 0
  let res := res.SetAllowed 1
  { res with WaitDelay := waitDelay }

/-- Go `NewMaxSemaphoreLock`. -/
def NewMaxSemaphoreLock (max : Int) (waitDelay : Int) : SemaphoreLock :=
  let res := SemaphoreLock.zero
  let res := res.SetMax (uint64OfInt max)
  let res := res.SetMin 1
  let res := res.SetActive 0
  let res := res.SetAllowed (uint64OfInt max)
  { res with WaitDelay := waitDelay }

/-! ## Compare-and-swap and the retry loops -/

/-- Go `atomic.CompareAndSwapUint64(addr, old, new)`: the new content of the
word and whether the swap happened. -/
def CompareAndSwapUint64 (addr old new : Nat) : Nat × Bool :=
  if addr = old then (new, true) else (addr, false)

/-- Outcome of one pass through the body of a `for` loop. -/
inductive Pass where
  | done (s : SemaphoreLock)
  | again (s : SemaphoreLock)
  deriving DecidableEq, Repr

/-- Run a loop body until it is done, at most `fuel` times. -/
def loop (body : SemaphoreLock → Pass) : Nat → SemaphoreLock → Option SemaphoreLock
  | 0, _ => none
  | fuel + 1, s =>
    match body s with
    | Pass.done s' => some s'
    | Pass.again s' => loop body fuel s'

/-- One pass of the loop of `BlockUntilAllowed`; the sleep leaves the state alone. -/
def BlockUntilAllowedPass (s : SemaphoreLock) : Pass :=
  let (active, allowed, activeAllowed) := s.GetActiveAllowed
  if active < allowed then
    let (word, swapped) :=
      CompareAndSwapUint64 s.activeAllowed activeAllowed ((activeAllowed + OneLHS) % U64)
    if swapped then Pass.done { s with activeAllowed := word }
    else Pass.again { s with activeAllowed := word }
  else Pass.again s

/-- Go `BlockUntilAllowed`. -/
def BlockUntilAllowed (fuel : Nat) (s : SemaphoreLock) : Option SemaphoreLock :=
  loop BlockUntilAllowedPass fuel s

/-- One pass of the loop of `ReleaseActive`. -/
def ReleaseActivePass (s : SemaphoreLock) : Pass :=
  let (active, _, activeAllowed) := s.GetActiveAllowed
  if active = 0 then Pass.done s
  else
    let (word, swapped) :=
      CompareAndSwapUint64 s.activeAllowed activeAllowed ((activeAllowed + U64 - OneLHS) % U64)
    if swapped then Pass.done { s with activeAllowed := word }
    else Pass.again { s with activeAllowed := word }

/-- Go `ReleaseActive`. -/
def ReleaseActive (fuel : Nat) (s : SemaphoreLock) : Option SemaphoreLock :=
  loop ReleaseActivePass fuel s

/-- One pass of the loop of `IncAllowed`. -/
def IncAllowedPass (s : SemaphoreLock) : Pass :=
  let activeAllowed := s.activeAllowed
  let allowed := activeAllowed &&& RHS
  let max := s.GetMax
  if allowed ≥ max then Pass.done s
  else
    let (word, swapped) :=
      CompareAndSwapUint64 s.activeAllowed activeAllowed ((activeAllowed + 1) % U64)
    if swapped then Pass.done { s with activeAllowed := word }
    else Pass.again { s with activeAllowed := word }

/-- Go `IncAllowed`. -/
def IncAllowed (fuel : Nat) (s : SemaphoreLock) : Option SemaphoreLock :=
  loop IncAllowedPass fuel s

/-- One pass of the loop of `DecAllowed`. -/
def DecAllowedPass (s : SemaphoreLock) : Pass :=
  let activeAllowed := s.activeAllowed
  let allowed := activeAllowed &&& RHS
  let min := s.GetMin
  if allowed ≤ min then Pass.done s
  else
    let (word, swapped) :=
      CompareAndSwapUint64 s.activeAllowed activeAllowed ((activeAllowed + U64 - 1) % U64)
    if swapped then Pass.done { s with activeAllowed := word }
    else Pass.again { s with activeAllowed := word }

/-- Go `DecAllowed`. -/
def DecAllowed (fuel : Nat) (s : SemaphoreLock) : Option SemaphoreLock :=
  loop DecAllowedPass fuel s

/-- Go `IncOrDecAllowed`. -/
def IncOrDecAllowed (fuel : Nat) (inc : Bool) (s : SemaphoreLock) : Option SemaphoreLock :=
  if inc then IncAllowed fuel s else DecAllowed fuel s

/-! ## Interleavings of whole operations -/

/-- The four operations a caller can issue against the occupancy word. -/
inductive Op where
  | acquire
  | release
  | inc
  | dec
  deriving DecidableEq, Repr

/-- Run one operation with the given fuel; `none` when it has not returned. -/
def Op.run (fuel : Nat) : Op → SemaphoreLock → Option SemaphoreLock
  | Op.acquire => BlockUntilAllowed fuel
  | Op.release => ReleaseActive fuel
  | Op.inc => IncAllowed fuel
  | Op.dec => DecAllowed fuel

/-- Run a sequence of operations, each with the given fuel, stopping with
`none` at the first one that does not return. -/
def runOps (fuel : Nat) : List Op → SemaphoreLock → Option SemaphoreLock
  | [], s => some s
  | op :: ops, s =>
    match op.run fuel s with
    | some s' => runOps fuel ops s'
    | none => none

/-- States reachable from `s0` by finitely many operations that returned. -/
inductive Reachable (s0 : SemaphoreLock) : SemaphoreLock → Prop where
  | start : Reachable s0 s0
  | step (op : Op) (fuel : Nat) (s s' : SemaphoreLock) :
      Reachable s0 s → op.run fuel s = some s' → Reachable s0 s'

/-- States reachable from `s0` when `DecAllowed` is issued only in a state where
a slot is free (`active < allowed`) or where it is a no-op (`allowed ≤ min`). -/
inductive ReachableFreeDec (s0 : SemaphoreLock) : SemaphoreLock → Prop where
  | start : ReachableFreeDec s0 s0
  | step (op : Op) (fuel : Nat) (s s' : SemaphoreLock) :
      ReachableFreeDec s0 s →
      (op = Op.dec → s.GetActive < s.GetAllowed ∨ s.GetAllowed ≤ s.GetMin) →
      op.run fuel s = some s' → ReachableFreeDec s0 s'

/-- The shape of every state of an instance built with ceiling `n`: the bounds
word holds `(1, n)`, the occupancy word is a 64-bit value and `allowed` lies in
`[1, n]`. -/
def Bounded (n : Nat) (s : SemaphoreLock) : Prop :=
  s.minMax = 4294967296 + n ∧ s.activeAllowed < 18446744073709551616 ∧
    1 ≤ s.activeAllowed % 4294967296 ∧ s.activeAllowed % 4294967296 ≤ n

/-- The limit after a sequence of returned operations, computed on the counter
alone for floor 1 and ceiling `n`: a raise adds one below `n`, a lowering takes
one off above 1, acquisitions and releases leave the limit alone. -/
def allowedAfter (n : Nat) : List Op → Nat → Nat
  | [], l => l
  | Op.inc :: ops, l => allowedAfter n ops (if l < n then l + 1 else l)
  | Op.dec :: ops, l => allowedAfter n ops (if 1 < l then l - 1 else l)
  | Op.acquire :: ops, l => allowedAfter n ops l
  | Op.release :: ops, l => allowedAfter n ops l

/-! ## Workers that acquire once and release once -/

/-- Where a worker stands: before its `BlockUntilAllowed` has returned, between
that return and its `ReleaseActive`, or after its `ReleaseActive`. -/
inductive Phase where
  | waiting
  | holding
  | finished
  deriving DecidableEq, Repr

/-- A semaphore shared by a list of workers. -/
structure Pool where
  sem : SemaphoreLock
  workers : List Phase
  deriving DecidableEq, Repr

/-- Worker `i` takes its next atomic step: a waiting worker claims a slot when
`BlockUntilAllowed` returns, a holding worker gives it back with
`ReleaseActive`; a finished or absent worker has no step. -/
def Pool.step (fuel : Nat) (i : Nat) (p : Pool) : Option Pool :=
  match p.workers[i]? with
  | some Phase.waiting =>
    match BlockUntilAllowed fuel p.sem with
    | some sem' => some { sem := sem', workers := p.workers.set i Phase.holding }
    | none => none
  | some Phase.holding =>
    match ReleaseActive fuel p.sem with
    | some sem' => some { sem := sem', workers := p.workers.set i Phase.finished }
    | none => none
  | _ => none

/-- Pools reachable from `p0` by finitely many worker steps. -/
inductive PoolReachable (p0 : Pool) : Pool → Prop where
  | start : PoolReachable p0 p0
  | step (i : Nat) (fuel : Nat) (p p' : Pool) :
      PoolReachable p0 p → p.step fuel i = some p' → PoolReachable p0 p'

/-- The shape of every pool on a semaphore with ceiling `n` whose limit is never
adjusted: the bounds word holds `(1, n)`, `allowed = n`, and `active` counts the
holding workers, of which there are at most `n`. -/
def PoolShape (n : Nat) (p : Pool) : Prop :=
  p.sem.minMax = 4294967296 + n ∧
    p.sem.activeAllowed = 4294967296 * p.workers.count Phase.holding + n ∧
    p.workers.count Phase.holding ≤ n

/-! ## Arithmetic reading of the bit operations -/

theorem shiftRight_ShiftLHS (w : Nat) : w >>> ShiftLHS = w / 4294967296 := by
  simp [ShiftLHS, Nat.shiftRight_eq_div_pow]

theorem and_RHS (w : Nat) : w &&& RHS = w % 4294967296 := by
  have h := Nat.and_pow_two_sub_one_eq_mod w 32
  simpa [RHS] using h

theorem GetMin_eq (s : SemaphoreLock) : s.GetMin = s.minMax / 4294967296 := by
  simp [SemaphoreLock.GetMin, shiftRight_ShiftLHS]

theorem GetMax_eq (s : SemaphoreLock) : s.GetMax = s.minMax % 4294967296 := by
  simp [SemaphoreLock.GetMax, and_RHS]

theorem GetActive_eq (s : SemaphoreLock) : s.GetActive = s.activeAllowed / 4294967296 := by
  simp [SemaphoreLock.GetActive, shiftRight_ShiftLHS]

theorem GetAllowed_eq (s : SemaphoreLock) : s.GetAllowed = s.activeAllowed % 4294967296 := by
  simp [SemaphoreLock.GetAllowed, and_RHS]

theorem Valid_iff (s : SemaphoreLock) :
    s.Valid ↔ s.minMax < 18446744073709551616 ∧ s.activeAllowed < 18446744073709551616 := by
  simp [SemaphoreLock.Valid, U64]

/-! ## One pass of each loop, without interference -/

theorem BlockUntilAllowedPass_eq (s : SemaphoreLock) :
    BlockUntilAllowedPass s =
      if s.activeAllowed / 4294967296 < s.activeAllowed % 4294967296 then
        Pass.done { s with activeAllowed := (s.activeAllowed + 4294967296) % 18446744073709551616 }
      else Pass.again s := by
  simp [BlockUntilAllowedPass, SemaphoreLock.GetActiveAllowed, CompareAndSwapUint64,
    shiftRight_ShiftLHS, and_RHS, OneLHS, U64]

theorem ReleaseActivePass_eq (s : SemaphoreLock) :
    ReleaseActivePass s =
      if s.activeAllowed / 4294967296 = 0 then Pass.done s
      else Pass.done { s with activeAllowed :=
        (s.activeAllowed + 18446744073709551616 - 4294967296) % 18446744073709551616 } := by
  simp [ReleaseActivePass, SemaphoreLock.GetActiveAllowed, CompareAndSwapUint64,
    shiftRight_ShiftLHS, OneLHS, U64]

theorem IncAllowedPass_eq (s : SemaphoreLock) :
    IncAllowedPass s =
      if s.activeAllowed % 4294967296 ≥ s.minMax % 4294967296 then Pass.done s
      else Pass.done { s with activeAllowed := (s.activeAllowed + 1) % 18446744073709551616 } := by
  simp [IncAllowedPass, CompareAndSwapUint64, GetMax_eq, and_RHS, U64]

theorem DecAllowedPass_eq (s : SemaphoreLock) :
    DecAllowedPass s =
      if s.activeAllowed % 4294967296 ≤ s.minMax / 4294967296 then Pass.done s
      else Pass.done { s with activeAllowed :=
        (s.activeAllowed + 18446744073709551616 - 1) % 18446744073709551616 } := by
  simp [DecAllowedPass, CompareAndSwapUint64, GetMin_eq, and_RHS, U64]

theorem loop_done (body : SemaphoreLock → Pass) (fuel : Nat) (s s' : SemaphoreLock)
    (h : body s = Pass.done s') : loop body (fuel + 1) s = some s' := by
  simp [loop, h]

theorem loop_stuck (body : SemaphoreLock → Pass) (s : SemaphoreLock)
    (h : body s = Pass.again s) : ∀ fuel, loop body fuel s = none := by
  intro fuel
  induction fuel with
  | zero => rfl
  | succ n ih => simp [loop, h, ih]

/-! ## The constructors on a 32-bit ceiling -/

theorem or_low (a b : Nat) (hb : b < 4294967296) :
    (4294967296 * a) ||| b = 4294967296 * a + b := by
  have h := Nat.mul_add_lt_is_or (i := 32) (b := b) (by simpa using hb) a
  simpa using h.symm

theorem uint64OfInt_natCast (n : Nat) (hn : n < 4294967296) : uint64OfInt (n : Int) = n := by
  have h : ((n : Int) % ((2 ^ 64 : Nat) : Int)) = ((n % 2 ^ 64 : Nat) : Int) := by
    rw [Int.ofNat_emod]
  rw [uint64OfInt, U64, h, Int.toNat_ofNat]
  omega

theorem NewMinSemaphoreLock_natCast (n : Nat) (hn : n < 4294967296) (d : Int) :
    NewMinSemaphoreLock (n : Int) d = ⟨4294967296 + n, 1, d⟩ := by
  have h1 : (1 <<< ShiftLHS) % U64 = 4294967296 * 1 := by decide
  have h0 : (0 <<< ShiftLHS) % U64 = 0 := by decide
  have hm : n % 4294967296 = n := Nat.mod_eq_of_lt hn
  simp only [NewMinSemaphoreLock, SemaphoreLock.zero, SemaphoreLock.SetMax, SemaphoreLock.SetMin,
    SemaphoreLock.SetActive, SemaphoreLock.SetAllowed, uint64OfInt_natCast n hn, Nat.zero_and,
    Nat.or_zero, Nat.zero_or, and_RHS, h1, h0, hm, or_low 1 n hn, Nat.zero_mod, Nat.mul_one]

theorem NewMaxSemaphoreLock_natCast (n : Nat) (hn : n < 4294967296) (d : Int) :
    NewMaxSemaphoreLock (n : Int) d = ⟨4294967296 + n, n, d⟩ := by
  have h1 : (1 <<< ShiftLHS) % U64 = 4294967296 * 1 := by decide
  have h0 : (0 <<< ShiftLHS) % U64 = 0 := by decide
  have hm : n % 4294967296 = n := Nat.mod_eq_of_lt hn
  simp only [NewMaxSemaphoreLock, SemaphoreLock.zero, SemaphoreLock.SetMax, SemaphoreLock.SetMin,
    SemaphoreLock.SetActive, SemaphoreLock.SetAllowed, uint64OfInt_natCast n hn, Nat.zero_and,
    Nat.or_zero, Nat.zero_or, and_RHS, h1, h0, hm, or_low 1 n hn, Nat.zero_mod, Nat.mul_one]

/-! ## What each operation returns, without interference -/

theorem BlockUntilAllowedPass_lt (s : SemaphoreLock) (h : s.GetActive < s.GetAllowed) :
    BlockUntilAllowedPass s =
      Pass.done { s with activeAllowed := s.activeAllowed + 4294967296 } := by
  rw [GetActive_eq, GetAllowed_eq] at h
  rw [BlockUntilAllowedPass_eq, if_pos h]
  have e : (s.activeAllowed + 4294967296) % 18446744073709551616
      = s.activeAllowed + 4294967296 := by omega
  rw [e]

theorem BlockUntilAllowedPass_ge (s : SemaphoreLock) (h : s.GetAllowed ≤ s.GetActive) :
    BlockUntilAllowedPass s = Pass.again s := by
  rw [GetActive_eq, GetAllowed_eq] at h
  rw [BlockUntilAllowedPass_eq, if_neg (by omega)]

theorem ReleaseActivePass_pos (s : SemaphoreLock) (hv : s.activeAllowed < U64)
    (h : 0 < s.GetActive) :
    ReleaseActivePass s =
      Pass.done { s with activeAllowed := s.activeAllowed - 4294967296 } := by
  rw [GetActive_eq] at h
  have hv' : s.activeAllowed < 18446744073709551616 := by simpa [U64] using hv
  rw [ReleaseActivePass_eq, if_neg (by omega)]
  have e : (s.activeAllowed + 18446744073709551616 - 4294967296) % 18446744073709551616
      = s.activeAllowed - 4294967296 := by omega
  rw [e]

theorem ReleaseActivePass_zero (s : SemaphoreLock) (h : s.GetActive = 0) :
    ReleaseActivePass s = Pass.done s := by
  rw [GetActive_eq] at h
  rw [ReleaseActivePass_eq, if_pos h]

theorem IncAllowedPass_lt (s : SemaphoreLock) (hv : s.activeAllowed < U64)
    (h : s.GetAllowed < s.GetMax) :
    IncAllowedPass s = Pass.done { s with activeAllowed := s.activeAllowed + 1 } := by
  rw [GetAllowed_eq, GetMax_eq] at h
  have hv' : s.activeAllowed < 18446744073709551616 := by simpa [U64] using hv
  rw [IncAllowedPass_eq, if_neg (by omega)]
  have e : (s.activeAllowed + 1) % 18446744073709551616 = s.activeAllowed + 1 := by omega
  rw [e]

theorem IncAllowedPass_ge (s : SemaphoreLock) (h : s.GetMax ≤ s.GetAllowed) :
    IncAllowedPass s = Pass.done s := by
  rw [GetAllowed_eq, GetMax_eq] at h
  rw [IncAllowedPass_eq, if_pos h]

theorem DecAllowedPass_gt (s : SemaphoreLock) (hv : s.activeAllowed < U64)
    (h : s.GetMin < s.GetAllowed) :
    DecAllowedPass s = Pass.done { s with activeAllowed := s.activeAllowed - 1 } := by
  rw [GetAllowed_eq, GetMin_eq] at h
  have hv' : s.activeAllowed < 18446744073709551616 := by simpa [U64] using hv
  rw [DecAllowedPass_eq, if_neg (by omega)]
  have e : (s.activeAllowed + 18446744073709551616 - 1) % 18446744073709551616
      = s.activeAllowed - 1 := by omega
  rw [e]

theorem DecAllowedPass_le (s : SemaphoreLock) (h : s.GetAllowed ≤ s.GetMin) :
    DecAllowedPass s = Pass.done s := by
  rw [GetAllowed_eq, GetMin_eq] at h
  rw [DecAllowedPass_eq, if_pos h]

/-! ## The four operations on an arbitrary state -/

/-- C3: on every occupancy word (so on every 64-bit one), when `active < allowed` the first pass of
`BlockUntilAllowed` returns, the word grows by exactly `OneLHS` without wrapping,
so `active` grows by one and `allowed`, `min`, `max` and the delay stay; when
`allowed ≤ active` a pass leaves the state as it is and the call never returns,
whatever the fuel. -/
theorem BlockUntilAllowed_spec (s : SemaphoreLock) :
    (s.GetActive < s.GetAllowed →
      ∃ s', BlockUntilAllowedPass s = Pass.done s' ∧
        (∀ fuel, BlockUntilAllowed (fuel + 1) s = some s') ∧
        s'.activeAllowed = s.activeAllowed + OneLHS ∧ s'.activeAllowed < U64 ∧
        s'.GetActive = s.GetActive + 1 ∧ s'.GetAllowed = s.GetAllowed ∧
        s'.GetMin = s.GetMin ∧ s'.GetMax = s.GetMax ∧
        s'.minMax = s.minMax ∧ s'.WaitDelay = s.WaitDelay) ∧
    (s.GetAllowed ≤ s.GetActive →
      BlockUntilAllowedPass s = Pass.again s ∧ ∀ fuel, BlockUntilAllowed fuel s = none) := by
  constructor
  · intro h
    have hp := BlockUntilAllowedPass_lt s h
    refine ⟨_, hp, fun fuel => loop_done _ fuel _ _ hp, ?_⟩
    rw [GetActive_eq, GetAllowed_eq] at h
    refine ⟨rfl, ?_, ?_, ?_, rfl, rfl, rfl, rfl⟩ <;>
      simp only [GetActive_eq, GetAllowed_eq, U64] <;> omega
  · intro h
    have hp := BlockUntilAllowedPass_ge s h
    exact ⟨hp, loop_stuck _ _ hp⟩

/-- Witness for C3: a word with two of three slots taken is claimed at once,
and a full word is not. -/
theorem BlockUntilAllowed_spec_witness :
    (∃ s', BlockUntilAllowedPass ⟨4294967299, 8589934595, 7⟩ = Pass.done s' ∧
        (∀ fuel, BlockUntilAllowed (fuel + 1) ⟨4294967299, 8589934595, 7⟩ = some s') ∧
        s'.activeAllowed = 8589934595 + OneLHS ∧ s'.activeAllowed < U64 ∧
        s'.GetActive = (⟨4294967299, 8589934595, 7⟩ : SemaphoreLock).GetActive + 1 ∧
        s'.GetAllowed = (⟨4294967299, 8589934595, 7⟩ : SemaphoreLock).GetAllowed ∧
        s'.GetMin = (⟨4294967299, 8589934595, 7⟩ : SemaphoreLock).GetMin ∧
        s'.GetMax = (⟨4294967299, 8589934595, 7⟩ : SemaphoreLock).GetMax ∧
        s'.minMax = 4294967299 ∧ s'.WaitDelay = 7) ∧
    (BlockUntilAllowedPass ⟨4294967299, 12884901891, 7⟩ = Pass.again ⟨4294967299, 12884901891, 7⟩ ∧
      ∀ fuel, BlockUntilAllowed fuel ⟨4294967299, 12884901891, 7⟩ = none) :=
  ⟨(BlockUntilAllowed_spec ⟨4294967299, 8589934595, 7⟩).1 (by decide),
   (BlockUntilAllowed_spec ⟨4294967299, 12884901891, 7⟩).2 (by decide)⟩

/-- C4: on every 64-bit occupancy word `ReleaseActive` returns in its first pass;
when `active > 0` the word shrinks by exactly `OneLHS`, so `active` drops by one
and `allowed`, `min`, `max` stay; when `active = 0` the state is returned as it
is. -/
theorem ReleaseActive_spec (s : SemaphoreLock) (hv : s.activeAllowed < U64) :
    (0 < s.GetActive →
      ∃ s', ReleaseActivePass s = Pass.done s' ∧
        (∀ fuel, ReleaseActive (fuel + 1) s = some s') ∧
        s'.activeAllowed + OneLHS = s.activeAllowed ∧
        s'.GetActive + 1 = s.GetActive ∧ s'.GetAllowed = s.GetAllowed ∧
        s'.GetMin = s.GetMin ∧ s'.GetMax = s.GetMax ∧
        s'.minMax = s.minMax ∧ s'.WaitDelay = s.WaitDelay) ∧
    (s.GetActive = 0 →
      ReleaseActivePass s = Pass.done s ∧ ∀ fuel, ReleaseActive (fuel + 1) s = some s) := by
  constructor
  · intro h
    have hp := ReleaseActivePass_pos s hv h
    refine ⟨_, hp, fun fuel => loop_done _ fuel _ _ hp, ?_⟩
    rw [GetActive_eq] at h
    have hO : OneLHS = 4294967296 := rfl
    refine ⟨?_, ?_, ?_, by rw [GetMin_eq, GetMin_eq], by rw [GetMax_eq, GetMax_eq], rfl, rfl⟩ <;>
      simp only [GetActive_eq, GetAllowed_eq, hO] <;> omega
  · intro h
    have hp := ReleaseActivePass_zero s h
    exact ⟨hp, fun fuel => loop_done _ fuel _ _ hp⟩

/-- Witness for C4: one of two held slots is released, and a release on an idle
word changes nothing. -/
theorem ReleaseActive_spec_witness :
    (∃ s', ReleaseActivePass ⟨4294967299, 8589934595, 7⟩ = Pass.done s' ∧
        (∀ fuel, ReleaseActive (fuel + 1) ⟨4294967299, 8589934595, 7⟩ = some s') ∧
        s'.activeAllowed + OneLHS = 8589934595 ∧
        s'.GetActive + 1 = (⟨4294967299, 8589934595, 7⟩ : SemaphoreLock).GetActive ∧
        s'.GetAllowed = (⟨4294967299, 8589934595, 7⟩ : SemaphoreLock).GetAllowed ∧
        s'.GetMin = (⟨4294967299, 8589934595, 7⟩ : SemaphoreLock).GetMin ∧
        s'.GetMax = (⟨4294967299, 8589934595, 7⟩ : SemaphoreLock).GetMax ∧
        s'.minMax = 4294967299 ∧ s'.WaitDelay = 7) ∧
    (ReleaseActivePass ⟨4294967299, 3, 7⟩ = Pass.done ⟨4294967299, 3, 7⟩ ∧
      ∀ fuel, ReleaseActive (fuel + 1) ⟨4294967299, 3, 7⟩ = some ⟨4294967299, 3, 7⟩) :=
  ⟨(ReleaseActive_spec ⟨4294967299, 8589934595, 7⟩ (by decide)).1 (by decide),
   (ReleaseActive_spec ⟨4294967299, 3, 7⟩ (by decide)).2 (by decide)⟩

/-- C5: on every pair of 64-bit words `IncAllowed` returns in its first pass;
`allowed` grows by exactly one when it is below `max`, the state is returned as
it is when `allowed = max`, the result never exceeds `max` in these two cases,
and `active`, `min`, `max` and the delay are never touched. -/
theorem IncAllowed_spec (s : SemaphoreLock) (hv : s.Valid) :
    ∃ s', IncAllowedPass s = Pass.done s' ∧
      (∀ fuel, IncAllowed (fuel + 1) s = some s') ∧
      (s.GetAllowed < s.GetMax →
        s'.GetAllowed = s.GetAllowed + 1 ∧ s'.activeAllowed = s.activeAllowed + 1) ∧
      (s.GetAllowed = s.GetMax → s' = s) ∧
      (s.GetAllowed ≤ s.GetMax → s'.GetAllowed ≤ s'.GetMax) ∧
      s'.GetActive = s.GetActive ∧ s'.GetMin = s.GetMin ∧ s'.GetMax = s.GetMax ∧
      s'.minMax = s.minMax ∧ s'.WaitDelay = s.WaitDelay ∧ s'.Valid := by
  have hv2 := (Valid_iff s).1 hv
  by_cases h : s.GetAllowed < s.GetMax
  · have hp := IncAllowedPass_lt s hv.2 h
    refine ⟨_, hp, fun fuel => loop_done _ fuel _ _ hp, ?_⟩
    rw [GetAllowed_eq, GetMax_eq] at h
    refine ⟨fun _ => ⟨?_, rfl⟩, fun e => ?_, fun _ => ?_, ?_, rfl, rfl, rfl, rfl, ?_⟩
    · simp only [GetAllowed_eq]; omega
    · rw [GetAllowed_eq, GetMax_eq] at e; omega
    · simp only [GetAllowed_eq, GetMax_eq]; omega
    · simp only [GetActive_eq]; omega
    · simp only [Valid_iff]; omega
  · have hp := IncAllowedPass_ge s (by omega)
    refine ⟨_, hp, fun fuel => loop_done _ fuel _ _ hp, ?_⟩
    refine ⟨fun h' => absurd h' h, fun _ => rfl, fun h' => h', rfl, rfl, rfl, rfl, rfl, hv⟩

/-- Witness for C5: a limit of 2 under a ceiling of 3 is raised to 3. -/
theorem IncAllowed_spec_witness :
    ∃ s', IncAllowedPass ⟨4294967299, 8589934594, 7⟩ = Pass.done s' ∧
      (∀ fuel, IncAllowed (fuel + 1) ⟨4294967299, 8589934594, 7⟩ = some s') ∧
      ((⟨4294967299, 8589934594, 7⟩ : SemaphoreLock).GetAllowed
          < (⟨4294967299, 8589934594, 7⟩ : SemaphoreLock).GetMax →
        s'.GetAllowed = (⟨4294967299, 8589934594, 7⟩ : SemaphoreLock).GetAllowed + 1 ∧
        s'.activeAllowed = 8589934594 + 1) ∧
      ((⟨4294967299, 8589934594, 7⟩ : SemaphoreLock).GetAllowed
          = (⟨4294967299, 8589934594, 7⟩ : SemaphoreLock).GetMax →
        s' = ⟨4294967299, 8589934594, 7⟩) ∧
      ((⟨4294967299, 8589934594, 7⟩ : SemaphoreLock).GetAllowed
          ≤ (⟨4294967299, 8589934594, 7⟩ : SemaphoreLock).GetMax →
        s'.GetAllowed ≤ s'.GetMax) ∧
      s'.GetActive = (⟨4294967299, 8589934594, 7⟩ : SemaphoreLock).GetActive ∧
      s'.GetMin = (⟨4294967299, 8589934594, 7⟩ : SemaphoreLock).GetMin ∧
      s'.GetMax = (⟨4294967299, 8589934594, 7⟩ : SemaphoreLock).GetMax ∧
      s'.minMax = 4294967299 ∧ s'.WaitDelay = 7 ∧ s'.Valid :=
  IncAllowed_spec ⟨4294967299, 8589934594, 7⟩ (by decide)

/-- C6: on every pair of 64-bit words `DecAllowed` returns in its first pass;
`allowed` drops by exactly one when it is above `min` (the word shrinks by one,
no borrow from the `active` half), the state is returned as it is when
`allowed = min`, the result never drops below `min` in these two cases, and
`active`, `min`, `max` and the delay are never touched. -/
theorem DecAllowed_spec (s : SemaphoreLock) (hv : s.Valid) :
    ∃ s', DecAllowedPass s = Pass.done s' ∧
      (∀ fuel, DecAllowed (fuel + 1) s = some s') ∧
      (s.GetMin < s.GetAllowed →
        s'.GetAllowed + 1 = s.GetAllowed ∧ s'.activeAllowed + 1 = s.activeAllowed) ∧
      (s.GetAllowed = s.GetMin → s' = s) ∧
      (s.GetMin ≤ s.GetAllowed → s'.GetMin ≤ s'.GetAllowed) ∧
      s'.GetActive = s.GetActive ∧ s'.GetMin = s.GetMin ∧ s'.GetMax = s.GetMax ∧
      s'.minMax = s.minMax ∧ s'.WaitDelay = s.WaitDelay ∧ s'.Valid := by
  have hv2 := (Valid_iff s).1 hv
  by_cases h : s.GetMin < s.GetAllowed
  · have hp := DecAllowedPass_gt s hv.2 h
    refine ⟨_, hp, fun fuel => loop_done _ fuel _ _ hp, ?_⟩
    rw [GetAllowed_eq, GetMin_eq] at h
    refine ⟨fun _ => ⟨?_, ?_⟩, fun e => ?_, fun _ => ?_, ?_, by rw [GetMin_eq, GetMin_eq],
      by rw [GetMax_eq, GetMax_eq], rfl, rfl, ?_⟩
    · simp only [GetAllowed_eq]; omega
    · show s.activeAllowed - 1 + 1 = s.activeAllowed; omega
    · rw [GetAllowed_eq, GetMin_eq] at e; omega
    · simp only [GetAllowed_eq, GetMin_eq]; omega
    · simp only [GetActive_eq]; omega
    · simp only [Valid_iff]; omega
  · have hp := DecAllowedPass_le s (by omega)
    refine ⟨_, hp, fun fuel => loop_done _ fuel _ _ hp, ?_⟩
    refine ⟨fun h' => absurd h' h, fun _ => rfl, fun h' => h', rfl, rfl, rfl, rfl, rfl, hv⟩

/-- Witness for C6: a limit of 2 above a floor of 1 is lowered to 1. -/
theorem DecAllowed_spec_witness :
    ∃ s', DecAllowedPass ⟨4294967299, 8589934594, 7⟩ = Pass.done s' ∧
      (∀ fuel, DecAllowed (fuel + 1) ⟨4294967299, 8589934594, 7⟩ = some s') ∧
      ((⟨4294967299, 8589934594, 7⟩ : SemaphoreLock).GetMin
          < (⟨4294967299, 8589934594, 7⟩ : SemaphoreLock).GetAllowed →
        s'.GetAllowed + 1 = (⟨4294967299, 8589934594, 7⟩ : SemaphoreLock).GetAllowed ∧
        s'.activeAllowed + 1 = 8589934594) ∧
      ((⟨4294967299, 8589934594, 7⟩ : SemaphoreLock).GetAllowed
          = (⟨4294967299, 8589934594, 7⟩ : SemaphoreLock).GetMin →
        s' = ⟨4294967299, 8589934594, 7⟩) ∧
      ((⟨4294967299, 8589934594, 7⟩ : SemaphoreLock).GetMin
          ≤ (⟨4294967299, 8589934594, 7⟩ : SemaphoreLock).GetAllowed →
        s'.GetMin ≤ s'.GetAllowed) ∧
      s'.GetActive = (⟨4294967299, 8589934594, 7⟩ : SemaphoreLock).GetActive ∧
      s'.GetMin = (⟨4294967299, 8589934594, 7⟩ : SemaphoreLock).GetMin ∧
      s'.GetMax = (⟨4294967299, 8589934594, 7⟩ : SemaphoreLock).GetMax ∧
      s'.minMax = 4294967299 ∧ s'.WaitDelay = 7 ∧ s'.Valid :=
  DecAllowed_spec ⟨4294967299, 8589934594, 7⟩ (by decide)

/-! ## Construction -/

/-- C7: for `0 ≤ max < 2 ^ 32` and every delay `d`, `NewMinSemaphoreLock max d`
has `min = 1`, `max = max`, `allowed = 1`, `active = 0` and delay `d`, and
`NewMaxSemaphoreLock max d` has `min = 1`, `max = max`, `allowed = max`,
`active = 0` and delay `d`. -/
theorem constructors_spec (max d : Int) (h0 : 0 ≤ max) (h1 : max < 4294967296) :
    ((NewMinSemaphoreLock max d).GetMin = 1 ∧
      ((NewMinSemaphoreLock max d).GetMax : Int) = max ∧
      (NewMinSemaphoreLock max d).GetAllowed = 1 ∧
      (NewMinSemaphoreLock max d).GetActive = 0 ∧
      (NewMinSemaphoreLock max d).WaitDelay = d) ∧
    ((NewMaxSemaphoreLock max d).GetMin = 1 ∧
      ((NewMaxSemaphoreLock max d).GetMax : Int) = max ∧
      ((NewMaxSemaphoreLock max d).GetAllowed : Int) = max ∧
      (NewMaxSemaphoreLock max d).GetActive = 0 ∧
      (NewMaxSemaphoreLock max d).WaitDelay = d) := by
  obtain ⟨n, rfl⟩ := Int.eq_ofNat_of_zero_le h0
  have hn : n < 4294967296 := by omega
  have e1 : (4294967296 + n) % 4294967296 = n := by omega
  have e2 : (4294967296 + n) / 4294967296 = 1 := by omega
  have e3 : n % 4294967296 = n := by omega
  have e4 : n / 4294967296 = 0 := by omega
  rw [NewMinSemaphoreLock_natCast n hn d, NewMaxSemaphoreLock_natCast n hn d]
  simp [GetMin_eq, GetMax_eq, GetActive_eq, GetAllowed_eq, e1, e2, e3, e4]

/-- Witness for C7: the ceiling 3 with a delay of 10 ms. -/
theorem constructors_spec_witness :
    ((NewMinSemaphoreLock 3 10000000).GetMin = 1 ∧
      ((NewMinSemaphoreLock 3 10000000).GetMax : Int) = 3 ∧
      (NewMinSemaphoreLock 3 10000000).GetAllowed = 1 ∧
      (NewMinSemaphoreLock 3 10000000).GetActive = 0 ∧
      (NewMinSemaphoreLock 3 10000000).WaitDelay = 10000000) ∧
    ((NewMaxSemaphoreLock 3 10000000).GetMin = 1 ∧
      ((NewMaxSemaphoreLock 3 10000000).GetMax : Int) = 3 ∧
      ((NewMaxSemaphoreLock 3 10000000).GetAllowed : Int) = 3 ∧
      (NewMaxSemaphoreLock 3 10000000).GetActive = 0 ∧
      (NewMaxSemaphoreLock 3 10000000).WaitDelay = 10000000) :=
  constructors_spec 3 10000000 (by decide) (by decide)

/-- C8 as stated fails: with `max = 0` both constructors give `min = 1 > max = 0`,
the grow-from-minimum instance has `allowed = 1 > max` and the
shrink-from-maximum instance has `allowed = 0 < min`; with `max = 2 ^ 32` the
shrink-from-maximum instance starts with `active = 1 > allowed = 0`. -/
theorem constructors_invariant_fails :
    ¬ ((NewMinSemaphoreLock 0 0).GetMin ≤ (NewMinSemaphoreLock 0 0).GetMax) ∧
    ¬ ((NewMinSemaphoreLock 0 0).GetAllowed ≤ (NewMinSemaphoreLock 0 0).GetMax) ∧
    ¬ ((NewMaxSemaphoreLock 0 0).GetMin ≤ (NewMaxSemaphoreLock 0 0).GetMax) ∧
    ¬ ((NewMaxSemaphoreLock 0 0).GetMin ≤ (NewMaxSemaphoreLock 0 0).GetAllowed) ∧
    ¬ ((NewMaxSemaphoreLock 4294967296 0).GetActive
        ≤ (NewMaxSemaphoreLock 4294967296 0).GetAllowed) := by
  decide

/-- C8 amended: for `1 ≤ max < 2 ^ 32` and every delay, both constructors return
an instance with `min ≤ max`, `min ≤ allowed ≤ max` and `active ≤ allowed`. -/
theorem constructors_invariant (max d : Int) (h1 : 1 ≤ max) (h2 : max < 4294967296) :
    ((NewMinSemaphoreLock max d).GetMin ≤ (NewMinSemaphoreLock max d).GetMax ∧
      (NewMinSemaphoreLock max d).GetMin ≤ (NewMinSemaphoreLock max d).GetAllowed ∧
      (NewMinSemaphoreLock max d).GetAllowed ≤ (NewMinSemaphoreLock max d).GetMax ∧
      (NewMinSemaphoreLock max d).GetActive ≤ (NewMinSemaphoreLock max d).GetAllowed) ∧
    ((NewMaxSemaphoreLock max d).GetMin ≤ (NewMaxSemaphoreLock max d).GetMax ∧
      (NewMaxSemaphoreLock max d).GetMin ≤ (NewMaxSemaphoreLock max d).GetAllowed ∧
      (NewMaxSemaphoreLock max d).GetAllowed ≤ (NewMaxSemaphoreLock max d).GetMax ∧
      (NewMaxSemaphoreLock max d).GetActive ≤ (NewMaxSemaphoreLock max d).GetAllowed) := by
  obtain ⟨n, rfl⟩ := Int.eq_ofNat_of_zero_le (by omega : (0 : Int) ≤ max)
  have hn : n < 4294967296 := by omega
  have hn1 : 1 ≤ n := by omega
  rw [NewMinSemaphoreLock_natCast n hn d, NewMaxSemaphoreLock_natCast n hn d]
  simp only [GetMin_eq, GetMax_eq, GetActive_eq, GetAllowed_eq]
  refine ⟨⟨?_, ?_, ?_, ?_⟩, ?_, ?_, ?_, ?_⟩ <;> omega

/-- Witness for C8 amended: the ceiling 5 with a delay of 1 ms. -/
theorem constructors_invariant_witness :
    ((NewMinSemaphoreLock 5 1000000).GetMin ≤ (NewMinSemaphoreLock 5 1000000).GetMax ∧
      (NewMinSemaphoreLock 5 1000000).GetMin ≤ (NewMinSemaphoreLock 5 1000000).GetAllowed ∧
      (NewMinSemaphoreLock 5 1000000).GetAllowed ≤ (NewMinSemaphoreLock 5 1000000).GetMax ∧
      (NewMinSemaphoreLock 5 1000000).GetActive ≤ (NewMinSemaphoreLock 5 1000000).GetAllowed) ∧
    ((NewMaxSemaphoreLock 5 1000000).GetMin ≤ (NewMaxSemaphoreLock 5 1000000).GetMax ∧
      (NewMaxSemaphoreLock 5 1000000).GetMin ≤ (NewMaxSemaphoreLock 5 1000000).GetAllowed ∧
      (NewMaxSemaphoreLock 5 1000000).GetAllowed ≤ (NewMaxSemaphoreLock 5 1000000).GetMax ∧
      (NewMaxSemaphoreLock 5 1000000).GetActive ≤ (NewMaxSemaphoreLock 5 1000000).GetAllowed) :=
  constructors_invariant 5 1000000 (by decide) (by decide)

/-! ## Effect of one returned operation -/

theorem loop_some_of_done (body : SemaphoreLock → Pass) (fuel : Nat) (s s' t : SemaphoreLock)
    (hb : body s = Pass.done t) (h : loop body fuel s = some s') : s' = t := by
  cases fuel with
  | zero => simp [loop] at h
  | succ k =>
    simp only [loop, hb] at h
    exact (Option.some.inj h).symm

theorem BlockUntilAllowed_some (fuel : Nat) (s s' : SemaphoreLock)
    (h : BlockUntilAllowed fuel s = some s') :
    s.activeAllowed / 4294967296 < s.activeAllowed % 4294967296 ∧
      s' = { s with activeAllowed := s.activeAllowed + 4294967296 } := by
  by_cases hlt : s.GetActive < s.GetAllowed
  · refine ⟨by simpa [GetActive_eq, GetAllowed_eq] using hlt, ?_⟩
    exact loop_some_of_done _ fuel s s' _ (BlockUntilAllowedPass_lt s hlt) h
  · have hn := loop_stuck _ s (BlockUntilAllowedPass_ge s (by omega)) fuel
    rw [BlockUntilAllowed, hn] at h
    cases h

theorem ReleaseActive_some (fuel : Nat) (s s' : SemaphoreLock)
    (hv : s.activeAllowed < 18446744073709551616) (h : ReleaseActive fuel s = some s') :
    (s.activeAllowed / 4294967296 = 0 ∧ s' = s) ∨
      (0 < s.activeAllowed / 4294967296 ∧
        s' = { s with activeAllowed := s.activeAllowed - 4294967296 }) := by
  by_cases h0 : s.GetActive = 0
  · left
    refine ⟨by simpa [GetActive_eq] using h0, ?_⟩
    exact loop_some_of_done _ fuel s s' _ (ReleaseActivePass_zero s h0) h
  · right
    have hpos : 0 < s.GetActive := Nat.pos_of_ne_zero h0
    refine ⟨by simpa [GetActive_eq] using hpos, ?_⟩
    exact loop_some_of_done _ fuel s s' _
      (ReleaseActivePass_pos s (by simpa [U64] using hv) hpos) h

theorem IncAllowed_some (fuel : Nat) (s s' : SemaphoreLock)
    (hv : s.activeAllowed < 18446744073709551616) (h : IncAllowed fuel s = some s') :
    (s.minMax % 4294967296 ≤ s.activeAllowed % 4294967296 ∧ s' = s) ∨
      (s.activeAllowed % 4294967296 < s.minMax % 4294967296 ∧
        s' = { s with activeAllowed := s.activeAllowed + 1 }) := by
  by_cases hlt : s.GetAllowed < s.GetMax
  · right
    refine ⟨by simpa [GetAllowed_eq, GetMax_eq] using hlt, ?_⟩
    exact loop_some_of_done _ fuel s s' _
      (IncAllowedPass_lt s (by simpa [U64] using hv) hlt) h
  · left
    have hge : s.GetMax ≤ s.GetAllowed := by omega
    refine ⟨by simpa [GetAllowed_eq, GetMax_eq] using hge, ?_⟩
    exact loop_some_of_done _ fuel s s' _ (IncAllowedPass_ge s hge) h

theorem DecAllowed_some (fuel : Nat) (s s' : SemaphoreLock)
    (hv : s.activeAllowed < 18446744073709551616) (h : DecAllowed fuel s = some s') :
    (s.activeAllowed % 4294967296 ≤ s.minMax / 4294967296 ∧ s' = s) ∨
      (s.minMax / 4294967296 < s.activeAllowed % 4294967296 ∧
        s' = { s with activeAllowed := s.activeAllowed - 1 }) := by
  by_cases hlt : s.GetMin < s.GetAllowed
  · right
    refine ⟨by simpa [GetAllowed_eq, GetMin_eq] using hlt, ?_⟩
    exact loop_some_of_done _ fuel s s' _
      (DecAllowedPass_gt s (by simpa [U64] using hv) hlt) h
  · left
    have hge : s.GetAllowed ≤ s.GetMin := by omega
    refine ⟨by simpa [GetAllowed_eq, GetMin_eq] using hge, ?_⟩
    exact loop_some_of_done _ fuel s s' _ (DecAllowedPass_le s hge) h

/-- Every returned operation keeps the shape of an instance with ceiling `n`. -/
theorem Bounded_run (n : Nat) (hn : n < 4294967296) (op : Op) (fuel : Nat)
    (s s' : SemaphoreLock) (hb : Bounded n s) (h : op.run fuel s = some s') :
    Bounded n s' := by
  obtain ⟨hm, hv, h1, h2⟩ := hb
  cases op with
  | acquire =>
    obtain ⟨hlt, rfl⟩ := BlockUntilAllowed_some fuel s s' h
    refine ⟨hm, ?_, ?_, ?_⟩ <;> simp only <;> omega
  | release =>
    rcases ReleaseActive_some fuel s s' hv h with ⟨_, rfl⟩ | ⟨hpos, rfl⟩
    · exact ⟨hm, hv, h1, h2⟩
    · refine ⟨hm, ?_, ?_, ?_⟩ <;> simp only <;> omega
  | inc =>
    rcases IncAllowed_some fuel s s' hv h with ⟨_, rfl⟩ | ⟨hlt, rfl⟩
    · exact ⟨hm, hv, h1, h2⟩
    · refine ⟨hm, ?_, ?_, ?_⟩ <;> simp only <;> omega
  | dec =>
    rcases DecAllowed_some fuel s s' hv h with ⟨_, rfl⟩ | ⟨hlt, rfl⟩
    · exact ⟨hm, hv, h1, h2⟩
    · refine ⟨hm, ?_, ?_, ?_⟩ <;> simp only <;> omega

theorem Bounded_NewMin (n : Nat) (h1 : 1 ≤ n) (hn : n < 4294967296) (d : Int) :
    Bounded n (NewMinSemaphoreLock (n : Int) d) := by
  rw [NewMinSemaphoreLock_natCast n hn d]
  refine ⟨rfl, ?_, ?_, ?_⟩ <;> simp only <;> omega

theorem Bounded_NewMax (n : Nat) (h1 : 1 ≤ n) (hn : n < 4294967296) (d : Int) :
    Bounded n (NewMaxSemaphoreLock (n : Int) d) := by
  rw [NewMaxSemaphoreLock_natCast n hn d]
  refine ⟨rfl, ?_, ?_, ?_⟩ <;> simp only <;> omega

theorem Bounded_Reachable (n : Nat) (hn : n < 4294967296) (s0 s : SemaphoreLock)
    (h0 : Bounded n s0) (h : Reachable s0 s) : Bounded n s := by
  induction h with
  | start => exact h0
  | step op fuel s s' _ hrun ih => exact Bounded_run n hn op fuel s s' ih hrun

theorem Reachable_of_runOps (fuel : Nat) (ops : List Op) (s0 s s' : SemaphoreLock)
    (h0 : Reachable s0 s) (h : runOps fuel ops s = some s') : Reachable s0 s' := by
  induction ops generalizing s with
  | nil =>
    simp only [runOps] at h
    cases h
    exact h0
  | cons op ops ih =>
    simp only [runOps] at h
    cases hrun : op.run fuel s with
    | none => rw [hrun] at h; cases h
    | some t =>
      rw [hrun] at h
      exact ih t (Reachable.step op fuel s t h0 hrun) h

theorem ReachableFreeDec_keeps (n : Nat) (hn : n < 4294967296) (s0 s : SemaphoreLock)
    (hb0 : Bounded n s0)
    (ha0 : s0.activeAllowed / 4294967296 ≤ s0.activeAllowed % 4294967296)
    (h : ReachableFreeDec s0 s) :
    Bounded n s ∧ s.activeAllowed / 4294967296 ≤ s.activeAllowed % 4294967296 := by
  induction h with
  | start => exact ⟨hb0, ha0⟩
  | step op fuel s s' _ hg hrun ih =>
    obtain ⟨hb, ha⟩ := ih
    refine ⟨Bounded_run n hn op fuel s s' hb hrun, ?_⟩
    obtain ⟨hm, hv, h1, h2⟩ := hb
    cases op with
    | acquire =>
      obtain ⟨hlt, rfl⟩ := BlockUntilAllowed_some fuel s s' hrun
      simp only; omega
    | release =>
      rcases ReleaseActive_some fuel s s' hv hrun with ⟨_, rfl⟩ | ⟨hpos, rfl⟩
      · exact ha
      · simp only; omega
    | inc =>
      rcases IncAllowed_some fuel s s' hv hrun with ⟨_, rfl⟩ | ⟨hlt, rfl⟩
      · exact ha
      · simp only; omega
    | dec =>
      rcases DecAllowed_some fuel s s' hv hrun with ⟨_, rfl⟩ | ⟨hlt, rfl⟩
      · exact ha
      · have hg' := hg rfl
        rw [GetActive_eq, GetAllowed_eq, GetMin_eq] at hg'
        simp only; omega

/-! ## Invariants of the reachable states -/

/-- C1: for `1 ≤ max < 2 ^ 32`, every state reachable from either constructor by
returned `BlockUntilAllowed`, `ReleaseActive`, `IncAllowed` and `DecAllowed`
calls has `min ≤ allowed ≤ max`, with `min = 1` and `max` the constructor
argument. -/
theorem allowed_within_bounds (max d : Int) (h1 : 1 ≤ max) (h2 : max < 4294967296)
    (s : SemaphoreLock)
    (h : Reachable (NewMinSemaphoreLock max d) s ∨ Reachable (NewMaxSemaphoreLock max d) s) :
    s.GetMin ≤ s.GetAllowed ∧ s.GetAllowed ≤ s.GetMax ∧
      s.GetMin = 1 ∧ (s.GetMax : Int) = max := by
  obtain ⟨n, rfl⟩ := Int.eq_ofNat_of_zero_le (by omega : (0 : Int) ≤ max)
  have hn : n < 4294967296 := by omega
  have hn1 : 1 ≤ n := by omega
  have hb : Bounded n s := by
    rcases h with h | h
    · exact Bounded_Reachable n hn _ s (Bounded_NewMin n hn1 hn d) h
    · exact Bounded_Reachable n hn _ s (Bounded_NewMax n hn1 hn d) h
  obtain ⟨hm, _, hl1, hl2⟩ := hb
  have e1 : (4294967296 + n) % 4294967296 = n := by omega
  have e2 : (4294967296 + n) / 4294967296 = 1 := by omega
  rw [GetMin_eq, GetMax_eq, GetAllowed_eq, hm, e1, e2]
  exact ⟨hl1, hl2, rfl, rfl⟩

/-- Witness for C1: three acquisitions, a lowering, a raise and a release on a
shrink-from-maximum instance with ceiling 3. -/
theorem allowed_within_bounds_witness :
    (⟨4294967299, 8589934595, 0⟩ : SemaphoreLock).GetMin
        ≤ (⟨4294967299, 8589934595, 0⟩ : SemaphoreLock).GetAllowed ∧
      (⟨4294967299, 8589934595, 0⟩ : SemaphoreLock).GetAllowed
        ≤ (⟨4294967299, 8589934595, 0⟩ : SemaphoreLock).GetMax ∧
      (⟨4294967299, 8589934595, 0⟩ : SemaphoreLock).GetMin = 1 ∧
      ((⟨4294967299, 8589934595, 0⟩ : SemaphoreLock).GetMax : Int) = 3 :=
  allowed_within_bounds 3 0 (by decide) (by decide) ⟨4294967299, 8589934595, 0⟩
    (Or.inr (Reachable_of_runOps 1
      [Op.acquire, Op.acquire, Op.acquire, Op.dec, Op.inc, Op.release]
      _ _ _ Reachable.start (by decide)))

/-- C2 as stated fails: on a shrink-from-maximum instance with ceiling 3, three
returned acquisitions followed by one `DecAllowed` reach `active = 3` and
`allowed = 2`. -/
theorem active_le_allowed_fails :
    runOps 1 [Op.acquire, Op.acquire, Op.acquire, Op.dec] (NewMaxSemaphoreLock 3 0)
        = some ⟨4294967299, 12884901890, 0⟩ ∧
      Reachable (NewMaxSemaphoreLock 3 0) ⟨4294967299, 12884901890, 0⟩ ∧
      (⟨4294967299, 12884901890, 0⟩ : SemaphoreLock).GetActive = 3 ∧
      (⟨4294967299, 12884901890, 0⟩ : SemaphoreLock).GetAllowed = 2 ∧
      ¬ ((⟨4294967299, 12884901890, 0⟩ : SemaphoreLock).GetActive
          ≤ (⟨4294967299, 12884901890, 0⟩ : SemaphoreLock).GetAllowed) :=
  ⟨by decide,
   Reachable_of_runOps 1 [Op.acquire, Op.acquire, Op.acquire, Op.dec] _ _ _
     Reachable.start (by decide),
   by decide, by decide, by decide⟩

/-- C2 amended: for `1 ≤ max < 2 ^ 32`, every state reachable from either
constructor by returned `BlockUntilAllowed`, `ReleaseActive` and `IncAllowed`
calls, and by `DecAllowed` calls issued while `active < allowed` or
`allowed ≤ min`, has `active ≤ allowed`. -/
theorem active_le_allowed (max d : Int) (h1 : 1 ≤ max) (h2 : max < 4294967296)
    (s : SemaphoreLock)
    (h : ReachableFreeDec (NewMinSemaphoreLock max d) s ∨
      ReachableFreeDec (NewMaxSemaphoreLock max d) s) :
    s.GetActive ≤ s.GetAllowed := by
  obtain ⟨n, rfl⟩ := Int.eq_ofNat_of_zero_le (by omega : (0 : Int) ≤ max)
  have hn : n < 4294967296 := by omega
  have hn1 : 1 ≤ n := by omega
  rw [GetActive_eq, GetAllowed_eq]
  rcases h with h | h
  · refine (ReachableFreeDec_keeps n hn _ s (Bounded_NewMin n hn1 hn d) ?_ h).2
    rw [NewMinSemaphoreLock_natCast n hn d]
    simp only; omega
  · refine (ReachableFreeDec_keeps n hn _ s (Bounded_NewMax n hn1 hn d) ?_ h).2
    rw [NewMaxSemaphoreLock_natCast n hn d]
    simp only; omega

/-- Witness for C2 amended: on a shrink-from-maximum instance with ceiling 3, an
acquisition followed by a `DecAllowed` issued while a slot is free. -/
theorem active_le_allowed_witness :
    (⟨4294967299, 4294967298, 0⟩ : SemaphoreLock).GetActive
      ≤ (⟨4294967299, 4294967298, 0⟩ : SemaphoreLock).GetAllowed :=
  active_le_allowed 3 0 (by decide) (by decide) ⟨4294967299, 4294967298, 0⟩
    (Or.inr
      (ReachableFreeDec.step Op.dec 1 ⟨4294967299, 4294967299, 0⟩ _
        (ReachableFreeDec.step Op.acquire 1 _ _ ReachableFreeDec.start
          (fun e => Op.noConfusion e) (by decide))
        (fun _ => Or.inl (by decide)) (by decide)))

/-! ## The limit along a sequence of operations -/

theorem runOps_allowed (n : Nat) (hn : n < 4294967296) (fuel : Nat) (ops : List Op)
    (s s' : SemaphoreLock) (hb : Bounded n s) (h : runOps fuel ops s = some s') :
    s'.activeAllowed % 4294967296 = allowedAfter n ops (s.activeAllowed % 4294967296) := by
  induction ops generalizing s with
  | nil =>
    simp only [runOps] at h
    cases h
    rfl
  | cons op ops ih =>
    simp only [runOps] at h
    cases hrun : op.run fuel s with
    | none => rw [hrun] at h; cases h
    | some t =>
      rw [hrun] at h
      have hbt := Bounded_run n hn op fuel s t hb hrun
      rw [ih t hbt h]
      obtain ⟨hm, hv, h1, h2⟩ := hb
      cases op with
      | acquire =>
        obtain ⟨hlt, rfl⟩ := BlockUntilAllowed_some fuel s t hrun
        have e : (s.activeAllowed + 4294967296) % 4294967296
            = s.activeAllowed % 4294967296 := by omega
        simp only [allowedAfter, e]
      | release =>
        rcases ReleaseActive_some fuel s t hv hrun with ⟨_, rfl⟩ | ⟨hpos, rfl⟩
        · simp only [allowedAfter]
        · have e : (s.activeAllowed - 4294967296) % 4294967296
              = s.activeAllowed % 4294967296 := by omega
          simp only [allowedAfter, e]
      | inc =>
        rcases IncAllowed_some fuel s t hv hrun with ⟨hge, rfl⟩ | ⟨hlt, rfl⟩
        · simp only [allowedAfter]
          rw [if_neg (by omega)]
        · have e : (s.activeAllowed + 1) % 4294967296
              = s.activeAllowed % 4294967296 + 1 := by omega
          simp only [allowedAfter, e]
          rw [if_pos (by omega)]
      | dec =>
        rcases DecAllowed_some fuel s t hv hrun with ⟨hle, rfl⟩ | ⟨hlt, rfl⟩
        · simp only [allowedAfter]
          rw [if_neg (by omega)]
        · have e : (s.activeAllowed - 1) % 4294967296
              = s.activeAllowed % 4294967296 - 1 := by omega
          simp only [allowedAfter, e]
          rw [if_pos (by omega)]

theorem runOps_returns (n : Nat) (hn : n < 4294967296) (fuel : Nat) (ops : List Op)
    (s : SemaphoreLock) (hb : Bounded n s) (hops : Op.acquire ∉ ops) :
    ∃ s', runOps (fuel + 1) ops s = some s' := by
  induction ops generalizing s with
  | nil => exact ⟨s, rfl⟩
  | cons op ops ih =>
    have hop : Op.acquire ≠ op := fun e => hops (e ▸ List.mem_cons_self _ _)
    have hrest : Op.acquire ∉ ops := fun e => hops (List.mem_cons_of_mem _ e)
    have hv : s.activeAllowed < U64 := by simpa [U64] using hb.2.1
    have hstep : ∃ t, op.run (fuel + 1) s = some t := by
      cases op with
      | acquire => exact absurd rfl hop
      | release =>
        by_cases h0 : s.GetActive = 0
        · exact ⟨_, loop_done _ fuel _ _ (ReleaseActivePass_zero s h0)⟩
        · exact ⟨_, loop_done _ fuel _ _ (ReleaseActivePass_pos s hv (Nat.pos_of_ne_zero h0))⟩
      | inc =>
        by_cases hlt : s.GetAllowed < s.GetMax
        · exact ⟨_, loop_done _ fuel _ _ (IncAllowedPass_lt s hv hlt)⟩
        · exact ⟨_, loop_done _ fuel _ _ (IncAllowedPass_ge s (by omega))⟩
      | dec =>
        by_cases hlt : s.GetMin < s.GetAllowed
        · exact ⟨_, loop_done _ fuel _ _ (DecAllowedPass_gt s hv hlt)⟩
        · exact ⟨_, loop_done _ fuel _ _ (DecAllowedPass_le s (by omega))⟩
    obtain ⟨t, ht⟩ := hstep
    obtain ⟨s', hs'⟩ := ih t (Bounded_run n hn op (fuel + 1) s t hb ht) hrest
    exact ⟨s', by simp only [runOps, ht, hs']⟩

theorem allowedAfter_climb (n : Nat) (ops : List Op) (l : Nat) (hl : l ≤ n)
    (hops : Op.dec ∉ ops) : allowedAfter n ops l = min (l + ops.count Op.inc) n := by
  induction ops generalizing l with
  | nil => simp [allowedAfter, hl]
  | cons op ops ih =>
    have hop : Op.dec ≠ op := fun e => hops (e ▸ List.mem_cons_self _ _)
    have hrest : Op.dec ∉ ops := fun e => hops (List.mem_cons_of_mem _ e)
    cases op with
    | acquire => simpa [allowedAfter] using ih l hl hrest
    | release => simpa [allowedAfter] using ih l hl hrest
    | dec => exact absurd rfl hop
    | inc =>
      simp only [allowedAfter, List.count_cons_self]
      by_cases hlt : l < n
      · rw [if_pos hlt, ih (l + 1) (by omega) hrest]; omega
      · rw [if_neg hlt, ih l hl hrest]; omega

theorem allowedAfter_descent (n : Nat) (ops : List Op) (l : Nat) (hl : 1 ≤ l)
    (hops : Op.inc ∉ ops) : allowedAfter n ops l = max (l - ops.count Op.dec) 1 := by
  induction ops generalizing l with
  | nil => simp [allowedAfter]; omega
  | cons op ops ih =>
    have hop : Op.inc ≠ op := fun e => hops (e ▸ List.mem_cons_self _ _)
    have hrest : Op.inc ∉ ops := fun e => hops (List.mem_cons_of_mem _ e)
    cases op with
    | acquire => simpa [allowedAfter] using ih l hl hrest
    | release => simpa [allowedAfter] using ih l hl hrest
    | inc => exact absurd rfl hop
    | dec =>
      simp only [allowedAfter, List.count_cons_self]
      by_cases hlt : 1 < l
      · rw [if_pos hlt, ih (l - 1) (by omega) hrest]; omega
      · rw [if_neg hlt, ih l hl hrest]; omega

theorem allowed_runOps_NewMin (max : Int) (n : Nat) (e : max = (n : Int)) (h1 : 1 ≤ n)
    (hn : n < 4294967296) (d : Int) (ops : List Op) (hops : Op.acquire ∉ ops) :
    (runOps 1 ops (NewMinSemaphoreLock max d)).map SemaphoreLock.GetAllowed
      = some (allowedAfter n ops 1) := by
  subst e
  have hb := Bounded_NewMin n h1 hn d
  obtain ⟨s', hs'⟩ := runOps_returns n hn 0 ops _ hb hops
  have ha := runOps_allowed n hn 1 ops _ s' hb hs'
  rw [NewMinSemaphoreLock_natCast n hn d] at ha
  have e1 : (1 : Nat) % 4294967296 = 1 := by omega
  simp only [e1] at ha
  rw [hs', Option.map_some', GetAllowed_eq, ha]

theorem allowed_runOps_NewMax (max : Int) (n : Nat) (e : max = (n : Int)) (h1 : 1 ≤ n)
    (hn : n < 4294967296) (d : Int) (ops : List Op) (hops : Op.acquire ∉ ops) :
    (runOps 1 ops (NewMaxSemaphoreLock max d)).map SemaphoreLock.GetAllowed
      = some (allowedAfter n ops n) := by
  subst e
  have hb := Bounded_NewMax n h1 hn d
  obtain ⟨s', hs'⟩ := runOps_returns n hn 0 ops _ hb hops
  have ha := runOps_allowed n hn 1 ops _ s' hb hs'
  rw [NewMaxSemaphoreLock_natCast n hn d] at ha
  have e1 : n % 4294967296 = n := by omega
  simp only [e1] at ha
  rw [hs', Option.map_some', GetAllowed_eq, ha]

/-- C9: for `1 ≤ max < 2 ^ 32`, after any sequence of returned `IncAllowed`,
`BlockUntilAllowed` and `ReleaseActive` calls on `NewMinSemaphoreLock max d`, the
limit is `min (1 + k) max` with `k` the number of `IncAllowed` calls; every
sequence without `BlockUntilAllowed` does return; and on ceiling 3 the limit
reads 1, 2, 3, 3 along three raises, also after a leading `DecAllowed`, which
leaves it at 1. -/
theorem grow_from_minimum (max d : Int) (h1 : 1 ≤ max) (h2 : max < 4294967296) :
    (∀ (fuel : Nat) (ops : List Op) (s : SemaphoreLock), Op.dec ∉ ops →
      runOps fuel ops (NewMinSemaphoreLock max d) = some s →
      (s.GetAllowed : Int) = min (1 + (ops.count Op.inc : Int)) max) ∧
    (∀ (fuel : Nat) (ops : List Op), Op.acquire ∉ ops →
      ∃ s, runOps (fuel + 1) ops (NewMinSemaphoreLock max d) = some s) ∧
    ((runOps 1 [] (NewMinSemaphoreLock 3 d)).map SemaphoreLock.GetAllowed = some 1 ∧
      (runOps 1 [Op.inc] (NewMinSemaphoreLock 3 d)).map SemaphoreLock.GetAllowed = some 2 ∧
      (runOps 1 [Op.inc, Op.inc] (NewMinSemaphoreLock 3 d)).map SemaphoreLock.GetAllowed
        = some 3 ∧
      (runOps 1 [Op.inc, Op.inc, Op.inc] (NewMinSemaphoreLock 3 d)).map
        SemaphoreLock.GetAllowed = some 3) ∧
    ((runOps 1 [Op.dec] (NewMinSemaphoreLock 3 d)).map SemaphoreLock.GetAllowed = some 1 ∧
      (runOps 1 [Op.dec, Op.inc] (NewMinSemaphoreLock 3 d)).map SemaphoreLock.GetAllowed
        = some 2 ∧
      (runOps 1 [Op.dec, Op.inc, Op.inc] (NewMinSemaphoreLock 3 d)).map
        SemaphoreLock.GetAllowed = some 3 ∧
      (runOps 1 [Op.dec, Op.inc, Op.inc, Op.inc] (NewMinSemaphoreLock 3 d)).map
        SemaphoreLock.GetAllowed = some 3) := by
  refine ⟨?_, ?_, ⟨?_, ?_, ?_, ?_⟩, ?_, ?_, ?_, ?_⟩
  · intro fuel ops s hops hrun
    obtain ⟨n, rfl⟩ := Int.eq_ofNat_of_zero_le (by omega : (0 : Int) ≤ max)
    have hn : n < 4294967296 := by omega
    have hn1 : 1 ≤ n := by omega
    have ha := runOps_allowed n hn fuel ops _ s (Bounded_NewMin n hn1 hn d) hrun
    rw [NewMinSemaphoreLock_natCast n hn d] at ha
    have e1 : (1 : Nat) % 4294967296 = 1 := by omega
    simp only [e1] at ha
    rw [allowedAfter_climb n ops 1 hn1 hops] at ha
    rw [GetAllowed_eq, ha]
    omega
  · intro fuel ops hops
    obtain ⟨n, rfl⟩ := Int.eq_ofNat_of_zero_le (by omega : (0 : Int) ≤ max)
    have hn : n < 4294967296 := by omega
    have hn1 : 1 ≤ n := by omega
    exact runOps_returns n hn fuel ops _ (Bounded_NewMin n hn1 hn d) hops
  · exact allowed_runOps_NewMin 3 3 rfl (by decide) (by decide) d [] (by decide)
  · exact allowed_runOps_NewMin 3 3 rfl (by decide) (by decide) d [Op.inc] (by decide)
  · exact allowed_runOps_NewMin 3 3 rfl (by decide) (by decide) d [Op.inc, Op.inc] (by decide)
  · exact allowed_runOps_NewMin 3 3 rfl (by decide) (by decide) d [Op.inc, Op.inc, Op.inc]
      (by decide)
  · exact allowed_runOps_NewMin 3 3 rfl (by decide) (by decide) d [Op.dec] (by decide)
  · exact allowed_runOps_NewMin 3 3 rfl (by decide) (by decide) d [Op.dec, Op.inc] (by decide)
  · exact allowed_runOps_NewMin 3 3 rfl (by decide) (by decide) d [Op.dec, Op.inc, Op.inc]
      (by decide)
  · exact allowed_runOps_NewMin 3 3 rfl (by decide) (by decide) d
      [Op.dec, Op.inc, Op.inc, Op.inc] (by decide)

/-- Witness for C9: on ceiling 3, three raises interleaved with two acquisitions
and a release end with the limit at `min (1 + 3) 3`. -/
theorem grow_from_minimum_witness :
    ((⟨4294967299, 4294967299, 0⟩ : SemaphoreLock).GetAllowed : Int)
      = min (1 + (([Op.inc, Op.acquire, Op.inc, Op.release, Op.inc, Op.acquire].count
          Op.inc : Nat) : Int)) 3 :=
  (grow_from_minimum 3 0 (by decide) (by decide)).1 1
    [Op.inc, Op.acquire, Op.inc, Op.release, Op.inc, Op.acquire]
    ⟨4294967299, 4294967299, 0⟩ (by decide) (by decide)

/-- C10: for `1 ≤ max < 2 ^ 32`, after any sequence of returned `DecAllowed`,
`BlockUntilAllowed` and `ReleaseActive` calls on `NewMaxSemaphoreLock max d`, the
limit is `max (max - k) 1` with `k` the number of `DecAllowed` calls; every
sequence without `BlockUntilAllowed` does return; and on ceiling 3 the limit
reads 3, 2, 1, 1 along three lowerings, also after a leading `IncAllowed`, which
leaves it at 3. -/
theorem shrink_from_maximum (max d : Int) (h1 : 1 ≤ max) (h2 : max < 4294967296) :
    (∀ (fuel : Nat) (ops : List Op) (s : SemaphoreLock), Op.inc ∉ ops →
      runOps fuel ops (NewMaxSemaphoreLock max d) = some s →
      (s.GetAllowed : Int) = Max.max (max - (ops.count Op.dec : Int)) 1) ∧
    (∀ (fuel : Nat) (ops : List Op), Op.acquire ∉ ops →
      ∃ s, runOps (fuel + 1) ops (NewMaxSemaphoreLock max d) = some s) ∧
    ((runOps 1 [] (NewMaxSemaphoreLock 3 d)).map SemaphoreLock.GetAllowed = some 3 ∧
      (runOps 1 [Op.dec] (NewMaxSemaphoreLock 3 d)).map SemaphoreLock.GetAllowed = some 2 ∧
      (runOps 1 [Op.dec, Op.dec] (NewMaxSemaphoreLock 3 d)).map SemaphoreLock.GetAllowed
        = some 1 ∧
      (runOps 1 [Op.dec, Op.dec, Op.dec] (NewMaxSemaphoreLock 3 d)).map
        SemaphoreLock.GetAllowed = some 1) ∧
    ((runOps 1 [Op.inc] (NewMaxSemaphoreLock 3 d)).map SemaphoreLock.GetAllowed = some 3 ∧
      (runOps 1 [Op.inc, Op.dec] (NewMaxSemaphoreLock 3 d)).map SemaphoreLock.GetAllowed
        = some 2 ∧
      (runOps 1 [Op.inc, Op.dec, Op.dec] (NewMaxSemaphoreLock 3 d)).map
        SemaphoreLock.GetAllowed = some 1 ∧
      (runOps 1 [Op.inc, Op.dec, Op.dec, Op.dec] (NewMaxSemaphoreLock 3 d)).map
        SemaphoreLock.GetAllowed = some 1) := by
  refine ⟨?_, ?_, ⟨?_, ?_, ?_, ?_⟩, ?_, ?_, ?_, ?_⟩
  · intro fuel ops s hops hrun
    obtain ⟨n, rfl⟩ := Int.eq_ofNat_of_zero_le (by omega : (0 : Int) ≤ max)
    have hn : n < 4294967296 := by omega
    have hn1 : 1 ≤ n := by omega
    have ha := runOps_allowed n hn fuel ops _ s (Bounded_NewMax n hn1 hn d) hrun
    rw [NewMaxSemaphoreLock_natCast n hn d] at ha
    have e1 : n % 4294967296 = n := by omega
    simp only [e1] at ha
    rw [allowedAfter_descent n ops n hn1 hops] at ha
    rw [GetAllowed_eq, ha]
    omega
  · intro fuel ops hops
    obtain ⟨n, rfl⟩ := Int.eq_ofNat_of_zero_le (by omega : (0 : Int) ≤ max)
    have hn : n < 4294967296 := by omega
    have hn1 : 1 ≤ n := by omega
    exact runOps_returns n hn fuel ops _ (Bounded_NewMax n hn1 hn d) hops
  · exact allowed_runOps_NewMax 3 3 rfl (by decide) (by decide) d [] (by decide)
  · exact allowed_runOps_NewMax 3 3 rfl (by decide) (by decide) d [Op.dec] (by decide)
  · exact allowed_runOps_NewMax 3 3 rfl (by decide) (by decide) d [Op.dec, Op.dec] (by decide)
  · exact allowed_runOps_NewMax 3 3 rfl (by decide) (by decide) d [Op.dec, Op.dec, Op.dec]
      (by decide)
  · exact allowed_runOps_NewMax 3 3 rfl (by decide) (by decide) d [Op.inc] (by decide)
  · exact allowed_runOps_NewMax 3 3 rfl (by decide) (by decide) d [Op.inc, Op.dec] (by decide)
  · exact allowed_runOps_NewMax 3 3 rfl (by decide) (by decide) d [Op.inc, Op.dec, Op.dec]
      (by decide)
  · exact allowed_runOps_NewMax 3 3 rfl (by decide) (by decide) d
      [Op.inc, Op.dec, Op.dec, Op.dec] (by decide)

/-- Witness for C10: on ceiling 3, two lowerings interleaved with an acquisition
and a release end with the limit at `max (3 - 2) 1`. -/
theorem shrink_from_maximum_witness :
    ((⟨4294967299, 1, 0⟩ : SemaphoreLock).GetAllowed : Int)
      = Max.max (3 - (([Op.acquire, Op.dec, Op.release, Op.dec].count Op.dec : Nat) : Int)) 1 :=
  (shrink_from_maximum 3 0 (by decide) (by decide)).1 1
    [Op.acquire, Op.dec, Op.release, Op.dec]
    ⟨4294967299, 1, 0⟩ (by decide) (by decide)

/-! ## The setters -/

theorem and_LHS (w : Nat) : w &&& LHS = 4294967296 * (w / 4294967296 % 4294967296) := by
  have hL : LHS = (2 ^ 32 - 1) <<< 32 := by decide
  have hR : 4294967296 * (w / 4294967296 % 4294967296) = ((w >>> 32) % 2 ^ 32) <<< 32 := by
    rw [Nat.shiftLeft_eq, Nat.shiftRight_eq_div_pow]
    norm_num
    omega
  rw [hL, hR]
  apply Nat.eq_of_testBit_eq
  intro i
  simp only [Nat.testBit_and, Nat.testBit_shiftLeft, Nat.testBit_two_pow_sub_one,
    Nat.testBit_mod_two_pow, Nat.testBit_shiftRight]
  by_cases h : 32 ≤ i
  · have e : 32 + (i - 32) = i := by omega
    simp only [e]
    cases w.testBit i <;> cases decide (i - 32 < 32) <;> simp [h]
  · simp [h]

theorem shiftLeft_ShiftLHS_mod (v : Nat) :
    (v <<< ShiftLHS) % U64 = 4294967296 * (v % 4294967296) := by
  rw [Nat.shiftLeft_eq]
  simp only [ShiftLHS, U64]
  norm_num
  omega

theorem or_high (a b : Nat) (hb : b < 4294967296) :
    b ||| (4294967296 * a) = 4294967296 * a + b := by
  rw [Nat.or_comm, or_low a b hb]

theorem SetMin_minMax (s : SemaphoreLock) (v : Nat) :
    (s.SetMin v).minMax = 4294967296 * (v % 4294967296) + s.minMax % 4294967296 := by
  simp only [SemaphoreLock.SetMin, shiftLeft_ShiftLHS_mod, and_RHS]
  exact or_low _ _ (Nat.mod_lt _ (by decide))

theorem SetActive_activeAllowed (s : SemaphoreLock) (v : Nat) :
    (s.SetActive v).activeAllowed
      = 4294967296 * (v % 4294967296) + s.activeAllowed % 4294967296 := by
  simp only [SemaphoreLock.SetActive, shiftLeft_ShiftLHS_mod, and_RHS]
  exact or_low _ _ (Nat.mod_lt _ (by decide))

theorem SetMax_minMax (s : SemaphoreLock) (v : Nat) (hv : v < 4294967296) :
    (s.SetMax v).minMax = 4294967296 * (s.minMax / 4294967296 % 4294967296) + v := by
  simp only [SemaphoreLock.SetMax, and_LHS]
  exact or_high _ _ hv

theorem SetAllowed_activeAllowed (s : SemaphoreLock) (v : Nat) (hv : v < 4294967296) :
    (s.SetAllowed v).activeAllowed
      = 4294967296 * (s.activeAllowed / 4294967296 % 4294967296) + v := by
  simp only [SemaphoreLock.SetAllowed, and_LHS]
  exact or_high _ _ hv

/-- The part of the frame property that the setters do have: `SetMin` and
`SetActive` keep the other half for every argument, `SetMax` and `SetAllowed`
keep it for an argument below `2 ^ 32`, and no setter writes the other word or
the delay. -/
theorem setters_frame_narrow (s : SemaphoreLock) (hs : s.Valid) (v w : Nat)
    (hw : w < 4294967296) :
    ((s.SetMin v).GetMax = s.GetMax ∧ (s.SetActive v).GetAllowed = s.GetAllowed ∧
      (s.SetMax w).GetMin = s.GetMin ∧ (s.SetAllowed w).GetActive = s.GetActive) ∧
    ((s.SetMin v).activeAllowed = s.activeAllowed ∧ (s.SetMax v).activeAllowed = s.activeAllowed ∧
      (s.SetActive v).minMax = s.minMax ∧ (s.SetAllowed v).minMax = s.minMax) ∧
    ((s.SetMin v).WaitDelay = s.WaitDelay ∧ (s.SetMax v).WaitDelay = s.WaitDelay ∧
      (s.SetActive v).WaitDelay = s.WaitDelay ∧ (s.SetAllowed v).WaitDelay = s.WaitDelay) := by
  obtain ⟨h1, h2⟩ := (Valid_iff s).1 hs
  refine ⟨⟨?_, ?_, ?_, ?_⟩, ⟨rfl, rfl, rfl, rfl⟩, ⟨rfl, rfl, rfl, rfl⟩⟩
  · rw [GetMax_eq, GetMax_eq, SetMin_minMax]; omega
  · rw [GetAllowed_eq, GetAllowed_eq, SetActive_activeAllowed]; omega
  · rw [GetMin_eq, GetMin_eq, SetMax_minMax s w hw]; omega
  · rw [GetActive_eq, GetActive_eq, SetAllowed_activeAllowed s w hw]; omega

/-- C11 fails on the code: on the fresh instance `NewMinSemaphoreLock 3 0`
(`min = 1`, `active = 0`), `SetMax (2 ^ 33)` turns `min` into 3 and
`SetAllowed (2 ^ 32)` turns `active` into 1, because the argument is or-ed into
the word without being cut to its low 32 bits. -/
theorem setter_wide_argument_clobbers :
    (NewMinSemaphoreLock 3 0).GetMin = 1 ∧
      ((NewMinSemaphoreLock 3 0).SetMax 8589934592).GetMin = 3 ∧
      (NewMinSemaphoreLock 3 0).GetActive = 0 ∧
      ((NewMinSemaphoreLock 3 0).SetAllowed 4294967296).GetActive = 1 ∧
      ((NewMinSemaphoreLock 3 0).SetMin 8589934592).GetMax = (NewMinSemaphoreLock 3 0).GetMax ∧
      ((NewMinSemaphoreLock 3 0).SetActive 4294967296).GetAllowed
        = (NewMinSemaphoreLock 3 0).GetAllowed := by
  decide

/-- C12: for every state and every `v < 2 ^ 32`, each getter reads back what its
setter wrote: `GetMin` after `SetMin v`, `GetMax` after `SetMax v`, `GetActive`
after `SetActive v` and `GetAllowed` after `SetAllowed v` all give `v`; the
first value of a pair sits in the high 32 bits and the second in the low 32
bits. -/
theorem setters_read_back (s : SemaphoreLock) (v : Nat) (hv : v < 4294967296) :
    (s.SetMin v).GetMin = v ∧ (s.SetMax v).GetMax = v ∧
      (s.SetActive v).GetActive = v ∧ (s.SetAllowed v).GetAllowed = v ∧
      (s.SetMin v).minMax / 4294967296 = v ∧ (s.SetMax v).minMax % 4294967296 = v ∧
      (s.SetActive v).activeAllowed / 4294967296 = v ∧
      (s.SetAllowed v).activeAllowed % 4294967296 = v := by
  have a1 : (s.SetMin v).minMax / 4294967296 = v := by rw [SetMin_minMax]; omega
  have a2 : (s.SetMax v).minMax % 4294967296 = v := by rw [SetMax_minMax s v hv]; omega
  have a3 : (s.SetActive v).activeAllowed / 4294967296 = v := by
    rw [SetActive_activeAllowed]; omega
  have a4 : (s.SetAllowed v).activeAllowed % 4294967296 = v := by
    rw [SetAllowed_activeAllowed s v hv]; omega
  refine ⟨?_, ?_, ?_, ?_, a1, a2, a3, a4⟩
  · rw [GetMin_eq, a1]
  · rw [GetMax_eq, a2]
  · rw [GetActive_eq, a3]
  · rw [GetAllowed_eq, a4]

/-- Witness for C12: writing 7 over each half of a state whose halves all hold
other values. -/
theorem setters_read_back_witness :
    ((⟨4294967299, 8589934597, 0⟩ : SemaphoreLock).SetMin 7).GetMin = 7 ∧
      ((⟨4294967299, 8589934597, 0⟩ : SemaphoreLock).SetMax 7).GetMax = 7 ∧
      ((⟨4294967299, 8589934597, 0⟩ : SemaphoreLock).SetActive 7).GetActive = 7 ∧
      ((⟨4294967299, 8589934597, 0⟩ : SemaphoreLock).SetAllowed 7).GetAllowed = 7 ∧
      ((⟨4294967299, 8589934597, 0⟩ : SemaphoreLock).SetMin 7).minMax / 4294967296 = 7 ∧
      ((⟨4294967299, 8589934597, 0⟩ : SemaphoreLock).SetMax 7).minMax % 4294967296 = 7 ∧
      ((⟨4294967299, 8589934597, 0⟩ : SemaphoreLock).SetActive 7).activeAllowed / 4294967296
        = 7 ∧
      ((⟨4294967299, 8589934597, 0⟩ : SemaphoreLock).SetAllowed 7).activeAllowed % 4294967296
        = 7 :=
  setters_read_back ⟨4294967299, 8589934597, 0⟩ 7 (by decide)

/-- C13: on every 64-bit occupancy word `w`, `GetActiveAllowed` returns `(a, l, r)`
with `r = w`, `a = GetActive`, `l = GetAllowed`, both below `2 ^ 32`, and
`r = a * 2 ^ 32 + l`. -/
theorem GetActiveAllowed_spec (s : SemaphoreLock) (hv : s.activeAllowed < U64) :
    s.GetActiveAllowed.2.2 = s.activeAllowed ∧
      s.GetActiveAllowed.1 = s.GetActive ∧ s.GetActiveAllowed.2.1 = s.GetAllowed ∧
      s.GetActiveAllowed.1 < 4294967296 ∧ s.GetActiveAllowed.2.1 < 4294967296 ∧
      s.GetActiveAllowed.2.2
        = s.GetActiveAllowed.1 * 4294967296 + s.GetActiveAllowed.2.1 := by
  have hv' : s.activeAllowed < 18446744073709551616 := by simpa [U64] using hv
  have e1 : s.GetActiveAllowed.1 = s.activeAllowed / 4294967296 := by
    simp [SemaphoreLock.GetActiveAllowed, shiftRight_ShiftLHS]
  have e2 : s.GetActiveAllowed.2.1 = s.activeAllowed % 4294967296 := by
    simp [SemaphoreLock.GetActiveAllowed, and_RHS]
  have e3 : s.GetActiveAllowed.2.2 = s.activeAllowed := rfl
  rw [e1, e2, e3, GetActive_eq, GetAllowed_eq]
  refine ⟨rfl, rfl, rfl, ?_, ?_, ?_⟩ <;> omega

/-- Witness for C13: the word with `active = 2` and `allowed = 5`. -/
theorem GetActiveAllowed_spec_witness :
    (⟨4294967299, 8589934597, 0⟩ : SemaphoreLock).GetActiveAllowed.2.2 = 8589934597 ∧
      (⟨4294967299, 8589934597, 0⟩ : SemaphoreLock).GetActiveAllowed.1
        = (⟨4294967299, 8589934597, 0⟩ : SemaphoreLock).GetActive ∧
      (⟨4294967299, 8589934597, 0⟩ : SemaphoreLock).GetActiveAllowed.2.1
        = (⟨4294967299, 8589934597, 0⟩ : SemaphoreLock).GetAllowed ∧
      (⟨4294967299, 8589934597, 0⟩ : SemaphoreLock).GetActiveAllowed.1 < 4294967296 ∧
      (⟨4294967299, 8589934597, 0⟩ : SemaphoreLock).GetActiveAllowed.2.1 < 4294967296 ∧
      (⟨4294967299, 8589934597, 0⟩ : SemaphoreLock).GetActiveAllowed.2.2
        = (⟨4294967299, 8589934597, 0⟩ : SemaphoreLock).GetActiveAllowed.1 * 4294967296
          + (⟨4294967299, 8589934597, 0⟩ : SemaphoreLock).GetActiveAllowed.2.1 :=
  GetActiveAllowed_spec ⟨4294967299, 8589934597, 0⟩ (by decide)

/-- C15: for every state and every fuel, `IncOrDecAllowed true` gives exactly
what `IncAllowed` gives and `IncOrDecAllowed false` exactly what `DecAllowed`
gives, whether that is a returned state or a loop still running. -/
theorem IncOrDecAllowed_dispatch (fuel : Nat) (s : SemaphoreLock) :
    IncOrDecAllowed fuel true s = IncAllowed fuel s ∧
      IncOrDecAllowed fuel false s = DecAllowed fuel s ∧
      (s.Valid → ∃ s1 s2, IncOrDecAllowed (fuel + 1) true s = some s1 ∧
        IncAllowed (fuel + 1) s = some s1 ∧
        IncOrDecAllowed (fuel + 1) false s = some s2 ∧
        DecAllowed (fuel + 1) s = some s2) := by
  refine ⟨rfl, rfl, fun hs => ?_⟩
  have hi : ∃ s1, IncAllowed (fuel + 1) s = some s1 := by
    by_cases hlt : s.GetAllowed < s.GetMax
    · exact ⟨_, loop_done _ fuel _ _ (IncAllowedPass_lt s hs.2 hlt)⟩
    · exact ⟨_, loop_done _ fuel _ _ (IncAllowedPass_ge s (by omega))⟩
  have hd : ∃ s2, DecAllowed (fuel + 1) s = some s2 := by
    by_cases hlt : s.GetMin < s.GetAllowed
    · exact ⟨_, loop_done _ fuel _ _ (DecAllowedPass_gt s hs.2 hlt)⟩
    · exact ⟨_, loop_done _ fuel _ _ (DecAllowedPass_le s (by omega))⟩
  obtain ⟨s1, h1⟩ := hi
  obtain ⟨s2, h2⟩ := hd
  exact ⟨s1, s2, h1, h1, h2, h2⟩

/-- Witness for C15: the dispatch on a state with `allowed = 2` between floor 1
and ceiling 3. -/
theorem IncOrDecAllowed_dispatch_witness :
    IncOrDecAllowed 1 true ⟨4294967299, 8589934594, 7⟩
        = IncAllowed 1 ⟨4294967299, 8589934594, 7⟩ ∧
      IncOrDecAllowed 1 false ⟨4294967299, 8589934594, 7⟩
        = DecAllowed 1 ⟨4294967299, 8589934594, 7⟩ ∧
      ∃ s1 s2, IncOrDecAllowed (0 + 1) true ⟨4294967299, 8589934594, 7⟩ = some s1 ∧
        IncAllowed (0 + 1) ⟨4294967299, 8589934594, 7⟩ = some s1 ∧
        IncOrDecAllowed (0 + 1) false ⟨4294967299, 8589934594, 7⟩ = some s2 ∧
        DecAllowed (0 + 1) ⟨4294967299, 8589934594, 7⟩ = some s2 :=
  ⟨(IncOrDecAllowed_dispatch 1 ⟨4294967299, 8589934594, 7⟩).1,
   (IncOrDecAllowed_dispatch 1 ⟨4294967299, 8589934594, 7⟩).2.1,
   (IncOrDecAllowed_dispatch 0 ⟨4294967299, 8589934594, 7⟩).2.2 (by decide)⟩

/-! ## Acquire and release in sequence -/

theorem runOps_acquire (k : Nat) (s : SemaphoreLock)
    (h : s.activeAllowed / 4294967296 + k ≤ s.activeAllowed % 4294967296) :
    runOps 1 (List.replicate k Op.acquire) s
      = some { s with activeAllowed := s.activeAllowed + 4294967296 * k } := by
  induction k generalizing s with
  | zero => rfl
  | succ k ih =>
    have hlt : s.GetActive < s.GetAllowed := by rw [GetActive_eq, GetAllowed_eq]; omega
    have hrun : Op.run 1 Op.acquire s
        = some { s with activeAllowed := s.activeAllowed + 4294967296 } :=
      loop_done _ 0 _ _ (BlockUntilAllowedPass_lt s hlt)
    have e : s.activeAllowed + 4294967296 + 4294967296 * k
        = s.activeAllowed + 4294967296 * (k + 1) := by omega
    simp only [List.replicate_succ, runOps, hrun]
    rw [ih { s with activeAllowed := s.activeAllowed + 4294967296 } (by simp only; omega)]
    simp only [e]

theorem runOps_release (k : Nat) (s : SemaphoreLock)
    (hv : s.activeAllowed < 18446744073709551616) (h : k ≤ s.activeAllowed / 4294967296) :
    runOps 1 (List.replicate k Op.release) s
      = some { s with activeAllowed := s.activeAllowed - 4294967296 * k } := by
  induction k generalizing s with
  | zero => rfl
  | succ k ih =>
    have hpos : 0 < s.GetActive := by rw [GetActive_eq]; omega
    have hrun : Op.run 1 Op.release s
        = some { s with activeAllowed := s.activeAllowed - 4294967296 } :=
      loop_done _ 0 _ _ (ReleaseActivePass_pos s (by simpa [U64] using hv) hpos)
    have e : s.activeAllowed - 4294967296 - 4294967296 * k
        = s.activeAllowed - 4294967296 * (k + 1) := by omega
    simp only [List.replicate_succ, runOps, hrun]
    rw [ih { s with activeAllowed := s.activeAllowed - 4294967296 } (by simp only; omega)
      (by simp only; omega)]
    simp only [e]

theorem runOps_append (fuel : Nat) (ops1 ops2 : List Op) (s t : SemaphoreLock)
    (h : runOps fuel ops1 s = some t) :
    runOps fuel (ops1 ++ ops2) s = runOps fuel ops2 t := by
  induction ops1 generalizing s with
  | nil =>
    simp only [runOps] at h
    cases h
    rfl
  | cons op ops ih =>
    rw [List.cons_append]
    simp only [runOps] at h ⊢
    cases hrun : op.run fuel s with
    | none => rw [hrun] at h; cases h
    | some u => rw [hrun] at h; exact ih u h

/-- C16: from every state with `active = 0`, for every `k ≤ allowed`, `k`
`BlockUntilAllowed` calls in a row each return in their first pass and leave
`active = k` with `allowed` unchanged, and `k` `ReleaseActive` calls after them
each return in their first pass and give back exactly the original state. -/
theorem acquire_release_identity (s : SemaphoreLock) (k : Nat) (h0 : s.GetActive = 0)
    (hk : k ≤ s.GetAllowed) :
    ∃ t, runOps 1 (List.replicate k Op.acquire) s = some t ∧
      t.activeAllowed = s.activeAllowed + k * OneLHS ∧
      t.GetActive = k ∧ t.GetAllowed = s.GetAllowed ∧
      t.minMax = s.minMax ∧ t.WaitDelay = s.WaitDelay ∧
      runOps 1 (List.replicate k Op.release) t = some s ∧
      runOps 1 (List.replicate k Op.acquire ++ List.replicate k Op.release) s = some s := by
  rw [GetActive_eq] at h0
  rw [GetAllowed_eq] at hk
  have ha := runOps_acquire k s (by omega)
  have hr := runOps_release k { s with activeAllowed := s.activeAllowed + 4294967296 * k }
    (by simp only; omega) (by simp only; omega)
  have e : s.activeAllowed + 4294967296 * k - 4294967296 * k = s.activeAllowed := by omega
  simp only [e] at hr
  have hO : OneLHS = 4294967296 := rfl
  refine ⟨_, ha, ?_, ?_, ?_, rfl, rfl, hr, ?_⟩
  · simp only [hO]; omega
  · rw [GetActive_eq]; simp only; omega
  · rw [GetAllowed_eq, GetAllowed_eq]; simp only; omega
  · rw [runOps_append 1 _ _ s _ ha, hr]

/-- Witness for C16: three acquisitions and three releases on an idle word with
`allowed = 3`. -/
theorem acquire_release_identity_witness :
    ∃ t, runOps 1 (List.replicate 3 Op.acquire) ⟨4294967299, 3, 7⟩ = some t ∧
      t.activeAllowed = 3 + 3 * OneLHS ∧
      t.GetActive = 3 ∧ t.GetAllowed = (⟨4294967299, 3, 7⟩ : SemaphoreLock).GetAllowed ∧
      t.minMax = 4294967299 ∧ t.WaitDelay = 7 ∧
      runOps 1 (List.replicate 3 Op.release) t = some ⟨4294967299, 3, 7⟩ ∧
      runOps 1 (List.replicate 3 Op.acquire ++ List.replicate 3 Op.release)
        ⟨4294967299, 3, 7⟩ = some ⟨4294967299, 3, 7⟩ :=
  acquire_release_identity ⟨4294967299, 3, 7⟩ 3 (by decide) (by decide)

/-! ## Held slots against the ceiling and the limit -/

theorem Reachable_active_le (n : Nat) (hn : n < 4294967296) (s0 s : SemaphoreLock)
    (hb0 : Bounded n s0) (ha0 : s0.activeAllowed / 4294967296 ≤ n) (h : Reachable s0 s) :
    Bounded n s ∧ s.activeAllowed / 4294967296 ≤ n := by
  induction h with
  | start => exact ⟨hb0, ha0⟩
  | step op fuel s s' _ hrun ih =>
    obtain ⟨hb, ha⟩ := ih
    refine ⟨Bounded_run n hn op fuel s s' hb hrun, ?_⟩
    obtain ⟨hm, hv, h1, h2⟩ := hb
    cases op with
    | acquire =>
      obtain ⟨hlt, rfl⟩ := BlockUntilAllowed_some fuel s s' hrun
      simp only; omega
    | release =>
      rcases ReleaseActive_some fuel s s' hv hrun with ⟨_, rfl⟩ | ⟨hpos, rfl⟩
      · exact ha
      · simp only; omega
    | inc =>
      rcases IncAllowed_some fuel s s' hv hrun with ⟨_, rfl⟩ | ⟨hlt, rfl⟩
      · exact ha
      · simp only; omega
    | dec =>
      rcases DecAllowed_some fuel s s' hv hrun with ⟨_, rfl⟩ | ⟨hlt, rfl⟩
      · exact ha
      · simp only; omega

/-- C17: for `1 ≤ max < 2 ^ 32`, every state reachable from either constructor by
returned `BlockUntilAllowed`, `ReleaseActive`, `IncAllowed` and `DecAllowed`
calls has `active ≤ max`, also when `DecAllowed` has lowered the limit under the
holders. -/
theorem active_le_max (max d : Int) (h1 : 1 ≤ max) (h2 : max < 4294967296)
    (s : SemaphoreLock)
    (h : Reachable (NewMinSemaphoreLock max d) s ∨ Reachable (NewMaxSemaphoreLock max d) s) :
    s.GetActive ≤ s.GetMax := by
  obtain ⟨n, rfl⟩ := Int.eq_ofNat_of_zero_le (by omega : (0 : Int) ≤ max)
  have hn : n < 4294967296 := by omega
  have hn1 : 1 ≤ n := by omega
  have key : Bounded n s ∧ s.activeAllowed / 4294967296 ≤ n := by
    rcases h with h | h
    · refine Reachable_active_le n hn _ s (Bounded_NewMin n hn1 hn d) ?_ h
      rw [NewMinSemaphoreLock_natCast n hn d]
      simp only; omega
    · refine Reachable_active_le n hn _ s (Bounded_NewMax n hn1 hn d) ?_ h
      rw [NewMaxSemaphoreLock_natCast n hn d]
      simp only; omega
  obtain ⟨⟨hm, _, _, _⟩, ha⟩ := key
  rw [GetActive_eq, GetMax_eq, hm]
  omega

/-- Witness for C17: on a shrink-from-maximum instance with ceiling 3, three
holders and a limit lowered to 2 under them. -/
theorem active_le_max_witness :
    (⟨4294967299, 12884901890, 0⟩ : SemaphoreLock).GetActive
      ≤ (⟨4294967299, 12884901890, 0⟩ : SemaphoreLock).GetMax :=
  active_le_max 3 0 (by decide) (by decide) ⟨4294967299, 12884901890, 0⟩
    (Or.inr (Reachable_of_runOps 1 [Op.acquire, Op.acquire, Op.acquire, Op.dec]
      _ _ _ Reachable.start (by decide)))

/-- C18: on every pair of 64-bit words, a returned `BlockUntilAllowed`,
`ReleaseActive` or `IncAllowed` call takes a state with `active ≤ allowed` to a
state with `active ≤ allowed`; `BlockUntilAllowed` never returns while
`allowed ≤ active`; under these three calls an excess of `active` over `allowed`
never grows; `ReleaseActive` and `IncAllowed` always return, and a release with
`active > 0` takes exactly one off `active`. -/
theorem excess_never_grows (s : SemaphoreLock) (hv : s.Valid) :
    (s.GetActive ≤ s.GetAllowed →
      ∀ (op : Op) (fuel : Nat) (s' : SemaphoreLock), op ≠ Op.dec →
        op.run fuel s = some s' → s'.GetActive ≤ s'.GetAllowed) ∧
    (s.GetAllowed ≤ s.GetActive → ∀ fuel, BlockUntilAllowed fuel s = none) ∧
    (s.GetAllowed ≤ s.GetActive →
      ∀ (op : Op) (fuel : Nat) (s' : SemaphoreLock), op ≠ Op.dec →
        op.run fuel s = some s' →
        s'.GetActive + s.GetAllowed ≤ s.GetActive + s'.GetAllowed) ∧
    (∀ fuel, ∃ s', ReleaseActive (fuel + 1) s = some s' ∧
      (0 < s.GetActive → s'.GetActive + 1 = s.GetActive ∧ s'.GetAllowed = s.GetAllowed)) ∧
    (∀ fuel, ∃ s', IncAllowed (fuel + 1) s = some s') := by
  obtain ⟨hv1, hv2⟩ := (Valid_iff s).1 hv
  refine ⟨?_, ?_, ?_, ?_, ?_⟩
  · intro hle op fuel s' hop hrun
    rw [GetActive_eq, GetAllowed_eq] at hle
    rw [GetActive_eq, GetAllowed_eq]
    cases op with
    | acquire =>
      obtain ⟨hlt, rfl⟩ := BlockUntilAllowed_some fuel s s' hrun
      simp only; omega
    | release =>
      rcases ReleaseActive_some fuel s s' hv2 hrun with ⟨_, rfl⟩ | ⟨hpos, rfl⟩
      · exact hle
      · simp only; omega
    | inc =>
      rcases IncAllowed_some fuel s s' hv2 hrun with ⟨_, rfl⟩ | ⟨hlt, rfl⟩
      · exact hle
      · simp only; omega
    | dec => exact absurd rfl hop
  · intro hge fuel
    exact loop_stuck _ s (BlockUntilAllowedPass_ge s hge) fuel
  · intro hge op fuel s' hop hrun
    rw [GetActive_eq, GetAllowed_eq] at hge
    simp only [GetActive_eq, GetAllowed_eq]
    cases op with
    | acquire =>
      obtain ⟨hlt, rfl⟩ := BlockUntilAllowed_some fuel s s' hrun
      omega
    | release =>
      rcases ReleaseActive_some fuel s s' hv2 hrun with ⟨_, rfl⟩ | ⟨hpos, rfl⟩
      · omega
      · simp only; omega
    | inc =>
      rcases IncAllowed_some fuel s s' hv2 hrun with ⟨_, rfl⟩ | ⟨hlt, rfl⟩
      · omega
      · simp only; omega
    | dec => exact absurd rfl hop
  · intro fuel
    by_cases h0 : s.GetActive = 0
    · exact ⟨s, loop_done _ fuel _ _ (ReleaseActivePass_zero s h0), fun hp => by omega⟩
    · have hpos : 0 < s.GetActive := Nat.pos_of_ne_zero h0
      refine ⟨_, loop_done _ fuel _ _ (ReleaseActivePass_pos s hv.2 hpos), fun _ => ?_⟩
      rw [GetActive_eq] at hpos
      simp only [GetActive_eq, GetAllowed_eq]
      omega
  · intro fuel
    by_cases hlt : s.GetAllowed < s.GetMax
    · exact ⟨_, loop_done _ fuel _ _ (IncAllowedPass_lt s hv.2 hlt)⟩
    · exact ⟨_, loop_done _ fuel _ _ (IncAllowedPass_ge s (by omega))⟩

/-- Witness for C18: an acquisition on a state with a free slot keeps
`active ≤ allowed`, an over-full state blocks `BlockUntilAllowed`, and a release
on it takes the excess from 1 to 0. -/
theorem excess_never_grows_witness :
    (⟨4294967299, 4294967298, 0⟩ : SemaphoreLock).GetActive
        ≤ (⟨4294967299, 4294967298, 0⟩ : SemaphoreLock).GetAllowed ∧
      (∀ fuel, BlockUntilAllowed fuel ⟨4294967299, 12884901890, 0⟩ = none) ∧
      (⟨4294967299, 8589934594, 0⟩ : SemaphoreLock).GetActive
          + (⟨4294967299, 12884901890, 0⟩ : SemaphoreLock).GetAllowed
        ≤ (⟨4294967299, 12884901890, 0⟩ : SemaphoreLock).GetActive
          + (⟨4294967299, 8589934594, 0⟩ : SemaphoreLock).GetAllowed :=
  ⟨(excess_never_grows ⟨4294967299, 2, 0⟩ (by decide)).1 (by decide) Op.acquire 1
      ⟨4294967299, 4294967298, 0⟩ (fun e => Op.noConfusion e) (by decide),
   (excess_never_grows ⟨4294967299, 12884901890, 0⟩ (by decide)).2.1 (by decide),
   (excess_never_grows ⟨4294967299, 12884901890, 0⟩ (by decide)).2.2.1 (by decide) Op.release 1
      ⟨4294967299, 8589934594, 0⟩ (fun e => Op.noConfusion e) (by decide)⟩

/-! ## Workers on a shared semaphore -/

theorem count_holding_set (ws : List Phase) (i : Nat) (ph new : Phase)
    (h : ws[i]? = some ph) :
    (ws.set i new).count Phase.holding
      = ws.count Phase.holding - (if ph = Phase.holding then 1 else 0)
        + (if new = Phase.holding then 1 else 0) := by
  obtain ⟨hi, e⟩ := List.getElem?_eq_some.1 h
  rw [List.count_set _ _ _ _ hi, e]
  simp

theorem Pool.step_waiting (fuel i : Nat) (p : Pool) (sem' : SemaphoreLock)
    (hw : p.workers[i]? = some Phase.waiting) (hb : BlockUntilAllowed fuel p.sem = some sem') :
    p.step fuel i = some { sem := sem', workers := p.workers.set i Phase.holding } := by
  simp only [Pool.step, hw, hb]

theorem Pool.step_holding (fuel i : Nat) (p : Pool) (sem' : SemaphoreLock)
    (hw : p.workers[i]? = some Phase.holding) (hb : ReleaseActive fuel p.sem = some sem') :
    p.step fuel i = some { sem := sem', workers := p.workers.set i Phase.finished } := by
  simp only [Pool.step, hw, hb]

theorem Pool.step_some (fuel i : Nat) (p p' : Pool) (h : p.step fuel i = some p') :
    (p.workers[i]? = some Phase.waiting ∧ ∃ sem', BlockUntilAllowed fuel p.sem = some sem' ∧
        p' = { sem := sem', workers := p.workers.set i Phase.holding }) ∨
      (p.workers[i]? = some Phase.holding ∧ ∃ sem', ReleaseActive fuel p.sem = some sem' ∧
        p' = { sem := sem', workers := p.workers.set i Phase.finished }) := by
  unfold Pool.step at h
  cases hw : p.workers[i]? with
  | none => rw [hw] at h; cases h
  | some ph =>
    rw [hw] at h
    cases ph with
    | waiting =>
      left
      simp only at h
      cases hb : BlockUntilAllowed fuel p.sem with
      | none => rw [hb] at h; cases h
      | some sem' =>
        rw [hb] at h
        exact ⟨rfl, sem', rfl, (Option.some.inj h).symm⟩
    | holding =>
      right
      simp only at h
      cases hb : ReleaseActive fuel p.sem with
      | none => rw [hb] at h; cases h
      | some sem' =>
        rw [hb] at h
        exact ⟨rfl, sem', rfl, (Option.some.inj h).symm⟩
    | finished => cases h

theorem PoolShape_step (n : Nat) (hn : n < 4294967296) (fuel i : Nat) (p p' : Pool)
    (hs : PoolShape n p) (h : p.step fuel i = some p') : PoolShape n p' := by
  obtain ⟨hm, ha, hc⟩ := hs
  rcases Pool.step_some fuel i p p' h with ⟨hw, sem', hb, rfl⟩ | ⟨hw, sem', hb, rfl⟩
  · obtain ⟨hlt, hsem⟩ := BlockUntilAllowed_some fuel p.sem sem' hb
    have hcnt : (p.workers.set i Phase.holding).count Phase.holding
        = p.workers.count Phase.holding + 1 := by
      rw [count_holding_set p.workers i Phase.waiting Phase.holding hw]
      simp
    have hm' : sem'.minMax = p.sem.minMax := by rw [hsem]
    have ha' : sem'.activeAllowed = p.sem.activeAllowed + 4294967296 := by rw [hsem]
    refine ⟨hm'.trans hm, ?_, ?_⟩
    · show sem'.activeAllowed
        = 4294967296 * (p.workers.set i Phase.holding).count Phase.holding + n
      rw [hcnt, ha']; omega
    · show (p.workers.set i Phase.holding).count Phase.holding ≤ n
      rw [hcnt]; omega
  · have hv : p.sem.activeAllowed < 18446744073709551616 := by omega
    have hpos : 0 < p.workers.count Phase.holding :=
      List.count_pos_iff.2 (List.getElem?_mem hw)
    have hcnt : (p.workers.set i Phase.finished).count Phase.holding
        = p.workers.count Phase.holding - 1 := by
      rw [count_holding_set p.workers i Phase.holding Phase.finished hw]
      simp
    rcases ReleaseActive_some fuel p.sem sem' hv hb with ⟨h0, _⟩ | ⟨_, hsem⟩
    · omega
    · have hm' : sem'.minMax = p.sem.minMax := by rw [hsem]
      have ha' : sem'.activeAllowed + 4294967296 = p.sem.activeAllowed := by
        rw [hsem]; simp only; omega
      refine ⟨hm'.trans hm, ?_, ?_⟩
      · show sem'.activeAllowed
          = 4294967296 * (p.workers.set i Phase.finished).count Phase.holding + n
        rw [hcnt]; omega
      · show (p.workers.set i Phase.finished).count Phase.holding ≤ n
        rw [hcnt]; omega

theorem PoolShape_start (n : Nat) (hn : n < 4294967296) (d : Int) (N : Nat) :
    PoolShape n { sem := NewMaxSemaphoreLock (n : Int) d,
                  workers := List.replicate N Phase.waiting } := by
  have hc : (List.replicate N Phase.waiting).count Phase.holding = 0 :=
    List.count_eq_zero.2 (fun hmem => Phase.noConfusion (List.eq_of_mem_replicate hmem))
  rw [NewMaxSemaphoreLock_natCast n hn d]
  refine ⟨rfl, ?_, ?_⟩
  · simp only [hc]; omega
  · simp only [hc]; omega

theorem PoolShape_reachable (n : Nat) (hn : n < 4294967296) (p0 p : Pool)
    (h0 : PoolShape n p0) (h : PoolReachable p0 p) : PoolShape n p := by
  induction h with
  | start => exact h0
  | step i fuel p p' _ hstep ih => exact PoolShape_step n hn fuel i p p' ih hstep

/-- C14: for `1 ≤ max < 2 ^ 32` and every number `N` of workers that each acquire
once and then release once on `NewMaxSemaphoreLock max d`, no reachable pool is
a deadlock: when some worker is not finished, either a worker holds a slot and
`active > 0`, or a worker waits and `active < allowed`; and in both cases some
worker takes a step in one pass. -/
theorem workers_no_deadlock (max d : Int) (h1 : 1 ≤ max) (h2 : max < 4294967296) (N : Nat)
    (p : Pool)
    (hr : PoolReachable { sem := NewMaxSemaphoreLock max d,
                          workers := List.replicate N Phase.waiting } p)
    (hu : ∃ ph ∈ p.workers, ph ≠ Phase.finished) :
    ((Phase.holding ∈ p.workers ∧ 0 < p.sem.GetActive) ∨
      (Phase.waiting ∈ p.workers ∧ p.sem.GetActive < p.sem.GetAllowed)) ∧
    ∃ i p', p.step 1 i = some p' := by
  obtain ⟨n, rfl⟩ := Int.eq_ofNat_of_zero_le (by omega : (0 : Int) ≤ max)
  have hn : n < 4294967296 := by omega
  have hn1 : 1 ≤ n := by omega
  obtain ⟨hm, ha, hc⟩ := PoolShape_reachable n hn _ p (PoolShape_start n hn d N) hr
  by_cases hh : Phase.holding ∈ p.workers
  · have hpos : 0 < p.workers.count Phase.holding := List.count_pos_iff.2 hh
    have hact : 0 < p.sem.GetActive := by rw [GetActive_eq]; omega
    refine ⟨Or.inl ⟨hh, hact⟩, ?_⟩
    obtain ⟨i, hi⟩ := List.mem_iff_getElem?.1 hh
    exact ⟨i, _, Pool.step_holding 1 i p _ hi
      (loop_done _ 0 _ _ (ReleaseActivePass_pos p.sem (by simp only [U64]; omega) hact))⟩
  · have hzero : p.workers.count Phase.holding = 0 := List.count_eq_zero.2 hh
    obtain ⟨ph, hmem, hne⟩ := hu
    have hwait : Phase.waiting ∈ p.workers := by
      cases ph with
      | waiting => exact hmem
      | holding => exact absurd hmem hh
      | finished => exact absurd rfl hne
    have hlt : p.sem.GetActive < p.sem.GetAllowed := by
      rw [GetActive_eq, GetAllowed_eq]; omega
    refine ⟨Or.inr ⟨hwait, hlt⟩, ?_⟩
    obtain ⟨i, hi⟩ := List.mem_iff_getElem?.1 hwait
    exact ⟨i, _, Pool.step_waiting 1 i p _ hi
      (loop_done _ 0 _ _ (BlockUntilAllowedPass_lt p.sem hlt))⟩

/-- Witness for C14: three workers on ceiling 2, two of them holding a slot and
the third still waiting. -/
theorem workers_no_deadlock_witness :
    ((Phase.holding ∈
          (⟨⟨4294967298, 8589934594, 0⟩, [Phase.holding, Phase.holding, Phase.waiting]⟩
            : Pool).workers ∧
        0 < (⟨⟨4294967298, 8589934594, 0⟩, [Phase.holding, Phase.holding, Phase.waiting]⟩
            : Pool).sem.GetActive) ∨
      (Phase.waiting ∈
          (⟨⟨4294967298, 8589934594, 0⟩, [Phase.holding, Phase.holding, Phase.waiting]⟩
            : Pool).workers ∧
        (⟨⟨4294967298, 8589934594, 0⟩, [Phase.holding, Phase.holding, Phase.waiting]⟩
            : Pool).sem.GetActive
          < (⟨⟨4294967298, 8589934594, 0⟩, [Phase.holding, Phase.holding, Phase.waiting]⟩
            : Pool).sem.GetAllowed)) ∧
    ∃ i p',
      (⟨⟨4294967298, 8589934594, 0⟩, [Phase.holding, Phase.holding, Phase.waiting]⟩
        : Pool).step 1 i = some p' :=
  workers_no_deadlock 2 0 (by decide) (by decide) 3
    ⟨⟨4294967298, 8589934594, 0⟩, [Phase.holding, Phase.holding, Phase.waiting]⟩
    (PoolReachable.step 1 1
      ⟨⟨4294967298, 4294967298, 0⟩, [Phase.holding, Phase.waiting, Phase.waiting]⟩ _
      (PoolReachable.step 0 1 _ _ PoolReachable.start (by decide)) (by decide))
    ⟨Phase.waiting, by decide, by decide⟩

end Semlock
